import Mathlib

/-!
Verification of the geo_tiler core pipeline: a shallow embedding of the
Rust sources (`geometry.rs`, `fibonacci.rs`, `tile.rs`, `mesh_generator.rs`,
`errors.rs`) over the real numbers, together with proofs of the specified
properties.

Modelling conventions:
* `f64` values are modelled as real numbers.  NaN / infinity payloads are
  modelled by a per-component finiteness flag on `Coord` (read only by the
  validation step of `clip_polygon_to_tiles`, which is the only place the
  source inspects `is_finite`).
* External geometry primitives (boolean intersection from the `geo` crate,
  point-in-polygon from `d3_geo_rs`, `Rotation3::rotation_between` from
  `nalgebra`, constrained Delaunay triangulation from
  `ghx_constrained_delaunay`) are taken as explicit function parameters;
  theorems that depend on their documented contracts state those contracts
  as hypotheses.
* Rust `Result` is modelled by `Except`; the error enum of `errors.rs` is
  mirrored as `GeoTilerError`.
-/

open Real

namespace GeoTiler

/-- A 3D point `(x, y, z)`, modelling the Rust tuple `(f64, f64, f64)`. -/
abbrev Vec3 : Type := ℝ × ℝ × ℝ

/-- A 2D coordinate, modelling `geo::Coord<f64>`.  The `xFinite`/`yFinite`
flags model whether the stored `f64` is finite (`is_finite`); the real
fields are meaningful only when the corresponding flag is `true`. -/
structure Coord where
  x : ℝ
  y : ℝ
  xFinite : Bool := true
  yFinite : Bool := true

instance : Inhabited Coord := ⟨⟨0, 0, true, true⟩⟩

/-- Equality of `geo::Coord` values (`PartialEq` compares the two `f64`
components; the finiteness flags are a modelling artefact and do not take
part in the comparison). -/
def coordEq (a b : Coord) : Prop := a.x = b.x ∧ a.y = b.y

/-- A polygon, modelling `geo::Polygon<f64>`: an exterior ring plus hole
rings (holes are carried but untouched by the core pipeline). -/
structure Polygon where
  exterior : List Coord
  holes : List (List Coord) := []

/-- A tile of the grid, from `tile.rs`: a rectangular boundary polygon plus
the polygon fragments clipped into it. -/
structure Tile where
  vertices : Polygon
  polygons : List Polygon

/-- The error enum of `errors.rs`. -/
inductive GeoTilerError where
  | CoordinateRangeError (longitude latitude : ℝ)
  | ProjectionError (msg : String)
  | InverseProjectionError (msg : String)
  | FibonacciError (msg : String)
  | RotationError (msg : String)
  | EmptyPointSetError (msg : String)
  | MeshGenerationError (msg : String)
  | GridGenerationError (msg : String)
  | InvalidPolygonError (msg : String)
  | TriangulationError (msg : String)

/-- `f64::EPSILON` = 2⁻⁵². -/
noncomputable def f64_EPSILON : ℝ := 1 / 2 ^ 52

/-- `f64::MAX` = (2 − 2⁻⁵²)·2¹⁰²³. -/
noncomputable def f64_MAX : ℝ := 2 ^ 1024 - 2 ^ 971

/-- `f64::MIN` = −`f64::MAX`. -/
noncomputable def f64_MIN : ℝ := -(2 ^ 1024 - 2 ^ 971)

/-! ## geometry.rs -/

open Classical in
/-- `sanitize_coordinates` (geometry.rs): snaps coordinates that exceed the
valid range by at most `epsilon` back to the exact boundary. -/
noncomputable def sanitize_coordinates (longitude latitude epsilon : ℝ) : ℝ × ℝ :=
  let sanitized_longitude : ℝ :=
    if longitude > 180 ∧ longitude ≤ 180 + epsilon then 180
    else if longitude < -180 ∧ longitude ≥ -180 - epsilon then -180
    else longitude
  let sanitized_latitude : ℝ :=
    if latitude > 90 ∧ latitude ≤ 90 + epsilon then 90
    else if latitude < -90 ∧ latitude ≥ -90 - epsilon then -90
    else latitude
  (sanitized_longitude, sanitized_latitude)

open Classical in
/-- `ll_to_cartesian` (geometry.rs): degrees → unit-sphere Cartesian. -/
noncomputable def ll_to_cartesian (longitude latitude : ℝ) :
    Except GeoTilerError Vec3 :=
  if |longitude| > 180 + 0.1 ∨ |latitude| > 90 + 0.1 then
    .error (.CoordinateRangeError longitude latitude)
  else
    let epsilon : ℝ := 1e-10
    let s := sanitize_coordinates longitude latitude epsilon
    let longitude_rad : ℝ := s.1 * π / 180
    let latitude_rad : ℝ := s.2 * π / 180
    .ok (Real.cos latitude_rad * Real.cos longitude_rad,
         Real.cos latitude_rad * Real.sin longitude_rad,
         Real.sin latitude_rad)

open Classical in
/-- `stereographic_projection` (geometry.rs): projection from the north
pole onto the plane `z = 0`. -/
noncomputable def stereographic_projection (point : Vec3) :
    Except GeoTilerError Coord :=
  let x := point.1
  let y := point.2.1
  let z := point.2.2
  if |z - 1| < f64_EPSILON then
    .error (.ProjectionError "Cannot project from the north pole (0, 0, 1)")
  else
    .ok ⟨x / (1 - z), y / (1 - z), true, true⟩

/-- Component-wise addition on `Vec3` (`nalgebra` vector addition). -/
def v3add (u v : Vec3) : Vec3 := (u.1 + v.1, u.2.1 + v.2.1, u.2.2 + v.2.2)

/-- Scalar multiplication on `Vec3`. -/
def v3smul (a : ℝ) (v : Vec3) : Vec3 := (a * v.1, a * v.2.1, a * v.2.2)

/-- Euclidean norm on `Vec3` (`nalgebra` `magnitude`). -/
noncomputable def norm3 (v : Vec3) : ℝ :=
  Real.sqrt (v.1 ^ 2 + v.2.1 ^ 2 + v.2.2 ^ 2)

/-- `Unit::new_normalize`: divide a vector by its norm. -/
noncomputable def normalize3 (v : Vec3) : Vec3 := v3smul (norm3 v)⁻¹ v

/-- The south pole `(0, 0, -1)`. -/
def southPole : Vec3 := (0, 0, -1)

/-- Component-wise sum of a list of points, modelling the accumulation loop
of `rotate_points_to_south_pole`. -/
def v3sum (points : List Vec3) : Vec3 :=
  points.foldl v3add (0, 0, 0)

/-- The arithmetic-mean centroid of a point set (geometry.rs lines
110–117). -/
noncomputable def centroid3 (points : List Vec3) : Vec3 :=
  v3smul (points.length : ℝ)⁻¹ (v3sum points)

open Classical in
/-- `rotate_points_to_south_pole` (geometry.rs).  The external
`nalgebra::Rotation3::rotation_between` is passed in as `rotBetween`;
`rotBetween a b` returns the rotation taking direction `a` to direction
`b`, or `none` when no rotation can be derived. -/
noncomputable def rotate_points_to_south_pole
    (rotBetween : Vec3 → Vec3 → Option (Vec3 → Vec3))
    (points : List Vec3) : Except GeoTilerError (List Vec3) :=
  if points = [] then
    .error (.EmptyPointSetError "Cannot rotate an empty set of points")
  else
    let center := centroid3 points
    if norm3 center < f64_EPSILON then
      .error (.RotationError
        "Points centroid is effectively zero; cannot determine rotation direction")
    else
      match rotBetween (normalize3 center) southPole with
      | none => .error (.RotationError
          "Failed to compute rotation between points centroid and south pole")
      | some rotation => .ok (points.map rotation)

/-- `distance_between` (geometry.rs): planar Euclidean distance. -/
noncomputable def distance_between (c1 c2 : Coord) : ℝ :=
  Real.sqrt ((c2.x - c1.x) * (c2.x - c1.x) + (c2.y - c1.y) * (c2.y - c1.y))

/-- `interpolate_point` (geometry.rs): linear interpolation along an
edge. -/
def interpolate_point (c1 c2 : Coord) (t : ℝ) : Coord :=
  ⟨c1.x + t * (c2.x - c1.x), c1.y + t * (c2.y - c1.y), true, true⟩

open Classical in
/-- The intermediate points inserted for one edge by `densify_edges`
(geometry.rs lines 166–178): when the edge is longer than `maxd` it is cut
into `num_segments = ⌈distance / maxd⌉` equal segments and the
`num_segments - 1` interior division points are inserted. -/
noncomputable def subdiv_points (maxd : ℝ) (c1 c2 : Coord) : List Coord :=
  let distance := distance_between c1 c2
  if distance > maxd then
    let num_segments : ℕ := (⌈distance / maxd⌉).toNat
    (List.range (num_segments - 1)).map
      (fun (j : ℕ) => interpolate_point c1 c2 (((j : ℝ) + 1) / (num_segments : ℝ)))
  else []

/-- The edge loop of `densify_edges` (geometry.rs lines 164–183), written
as recursion over the remaining coordinates.  For the edge `c1 → c2` the
subdivision points are emitted, and `c2` itself is emitted only when more
coordinates follow (the source guard `i < coords.len() - 2`, which skips
the final coordinate of the ring). -/
noncomputable def densify_aux (maxd : ℝ) : Coord → Coord → List Coord → List Coord
  | c1, c2, [] => subdiv_points maxd c1 c2
  | c1, c2, c3 :: rest =>
      subdiv_points maxd c1 c2 ++ c2 :: densify_aux maxd c2 c3 rest

open Classical in
/-- The body of `densify_edges` (geometry.rs lines 153–191): rings of
fewer than 2 coordinates are returned unchanged; otherwise the first
coordinate is kept, each edge is processed by `densify_aux`, and the last
coordinate is re-appended only when the ring was not closed (source lines
185–188; `!=` is `geo::Coord` equality, i.e. `coordEq`). -/
noncomputable def densify_ring_core (coords : List Coord) (maxd : ℝ) : List Coord :=
  match coords with
  | [] => []
  | [c] => [c]
  | c0 :: c1 :: rest =>
      let last_coord := (c1 :: rest).getLast (List.cons_ne_nil c1 rest)
      c0 :: densify_aux maxd c0 c1 rest ++
        (if rest ≠ [] ∧ ¬ coordEq last_coord c0 then [last_coord] else [])

open Classical in
/-- `geo` re-closes a `LineString` after `Polygon::exterior_mut` runs: if
the first and last coordinates differ the first coordinate is pushed at
the end. -/
noncomputable def close_ring (l : List Coord) : List Coord :=
  match l with
  | [] => []
  | a :: rest =>
      if coordEq ((a :: rest).getLast (List.cons_ne_nil a rest)) a then a :: rest
      else (a :: rest) ++ [a]

/-- `densify_edges` (geometry.rs): subdivide over-long exterior edges in
place; `geo` closes the mutated ring afterwards. -/
noncomputable def densify_edges (polygon : Polygon) (max_distance : ℝ) : Polygon :=
  { polygon with exterior := close_ring (densify_ring_core polygon.exterior max_distance) }

/-! ## fibonacci.rs -/

/-- Rust `f64` remainder `theta % (2π)` for a non-negative dividend and
positive divisor (the only case arising in `fibonacci_sphere`, where
`theta = φ·i ≥ 0`): truncated and floored division agree there. -/
noncomputable def fmod_pos (x y : ℝ) : ℝ := x - y * ⌊x / y⌋

open Classical in
/-- The longitude wrap of `fibonacci_sphere` (fibonacci.rs lines 38–43):
reduce `theta` modulo `2π` into `[0, 2π)`, then shift results above `π`
down by `2π`. -/
noncomputable def wrap_longitude (theta : ℝ) : ℝ :=
  let longitude := fmod_pos theta (2 * π)
  if longitude > π then longitude - 2 * π else longitude

open Classical in
/-- `fibonacci_sphere` (fibonacci.rs): golden-angle spiral sampling;
each produced `Coord` holds longitude (`x`) and latitude (`y`) in
radians. -/
noncomputable def fibonacci_sphere (n : ℕ) : Except GeoTilerError (List Coord) :=
  if n = 0 then
    .error (.FibonacciError "Cannot generate zero points in fibonacci sphere")
  else
    let phi : ℝ := π * (Real.sqrt 5 - 1)
    let denominator : ℝ := if n > 1 then (n : ℝ) - 1 else 1
    if |denominator| < f64_EPSILON then
      .error (.FibonacciError "Cannot divide by zero")
    else
      .ok ((List.range n).map (fun (i : ℕ) =>
        let y : ℝ := 1 - ((i : ℝ) / denominator) * 2
        let theta : ℝ := phi * (i : ℝ)
        (⟨wrap_longitude theta, Real.arcsin y, true, true⟩ : Coord)))

/-! ## tile.rs -/

/-- `DEFAULT_MAX_DISTANCE_BETWEEN_POINTS` (tile.rs). -/
noncomputable def DEFAULT_MAX_DISTANCE_BETWEEN_POINTS : ℝ := 0.5

/-- Rust `(lo..hi).step_by(s)` for integer bounds: the values
`lo + k·s` for `k < ⌈(hi - lo) / s⌉`. -/
def step_by (lo hi : ℤ) (s : ℕ) : List ℤ :=
  (List.range (((hi - lo).toNat + s - 1) / s)).map
    (fun (k : ℕ) => lo + (k : ℤ) * (s : ℤ))

/-- One grid tile of `generate_grid` (tile.rs lines 80–88): corner order
`bl, br, tl, tr` as in the source; `geo::Polygon::new` closes the ring by
appending the first coordinate. -/
def make_tile (i j : ℤ) (step : ℕ) : Tile :=
  let bl : Coord := ⟨(i : ℝ), (j : ℝ), true, true⟩
  let br : Coord := ⟨((i + (step : ℤ) : ℤ) : ℝ), (j : ℝ), true, true⟩
  let tl : Coord := ⟨(i : ℝ), ((j + (step : ℤ) : ℤ) : ℝ), true, true⟩
  let tr : Coord := ⟨((i + (step : ℤ) : ℤ) : ℝ), ((j + (step : ℤ) : ℤ) : ℝ), true, true⟩
  { vertices := { exterior := [bl, br, tl, tr, bl] }, polygons := [] }

/-- `generate_grid` (tile.rs). -/
def generate_grid (step : ℕ) : Except GeoTilerError (List Tile) :=
  if step = 0 then
    .error (.GridGenerationError "Step size must be greater than 0")
  else if step > 180 then
    .error (.GridGenerationError "Step size is too large. Maximum allowed is 180 degrees")
  else if 360 % step ≠ 0 then
    .error (.GridGenerationError "Step size does not evenly divide 360 degrees. This would result in incomplete longitude coverage")
  else if 180 % step ≠ 0 then
    .error (.GridGenerationError "Step size does not evenly divide 180 degrees. This would result in incomplete latitude coverage")
  else
    .ok ((step_by (-180) 180 step).flatMap (fun i =>
      (step_by (-90) 90 step).map (fun j => make_tile i j step)))

/-- `clip_polygon_to_tiles` (tile.rs).  The boolean intersection of the
`geo` crate is passed in as `intersect` (it returns the fragment polygons
of one tile/polygon intersection).  The pair returned models the Rust
`(Result, state of the &mut grid)`. -/
noncomputable def clip_polygon_to_tiles
    (intersect : Polygon → Polygon → List Polygon)
    (grid : List Tile) (polygon : Polygon) :
    Except GeoTilerError Unit × List Tile :=
  let vertex_count := polygon.exterior.length
  if vertex_count < 4 then
    (.error (.InvalidPolygonError "Polygon must have at least 3 vertices"), grid)
  else if polygon.exterior.any (fun c => !c.xFinite || !c.yFinite) then
    (.error (.InvalidPolygonError "Polygon contains NaN or infinite coordinates"), grid)
  else
    (.ok (), grid.map (fun tile =>
      { tile with polygons := tile.polygons ++
          ((intersect tile.vertices polygon).map
            (fun rp => densify_edges rp DEFAULT_MAX_DISTANCE_BETWEEN_POINTS)) }))

/-- Rust `f64::clamp(lo, hi)` (defined for `lo ≤ hi`). -/
noncomputable def clamp_val (x lo hi : ℝ) : ℝ := max lo (min x hi)

/-- The `max_x` accumulator of `clamp_polygon` (tile.rs lines 171–179),
folded over the tile exterior starting from `f64::MIN`. -/
noncomputable def ring_max_x (tile_exterior : List Coord) : ℝ :=
  tile_exterior.foldl (fun acc c => max acc c.x) f64_MIN

/-- The `max_y` accumulator of `clamp_polygon`. -/
noncomputable def ring_max_y (tile_exterior : List Coord) : ℝ :=
  tile_exterior.foldl (fun acc c => max acc c.y) f64_MIN

/-- The `min_x` accumulator of `clamp_polygon`, starting from
`f64::MAX`. -/
noncomputable def ring_min_x (tile_exterior : List Coord) : ℝ :=
  tile_exterior.foldl (fun acc c => min acc c.x) f64_MAX

/-- The `min_y` accumulator of `clamp_polygon`. -/
noncomputable def ring_min_y (tile_exterior : List Coord) : ℝ :=
  tile_exterior.foldl (fun acc c => min acc c.y) f64_MAX

/-- `clamp_polygon` (tile.rs): clamp every exterior coordinate of
`polygon` into the bounding rectangle of `tile_exterior`. -/
noncomputable def clamp_polygon (polygon : Polygon) (tile_exterior : List Coord) : Polygon :=
  { polygon with exterior := polygon.exterior.map (fun c =>
      { c with
        x := clamp_val c.x (ring_min_x tile_exterior) (ring_max_x tile_exterior),
        y := clamp_val c.y (ring_min_y tile_exterior) (ring_max_y tile_exterior) }) }

/-- `clamp_polygons` (tile.rs): clamp every fragment of every tile to its
own tile boundary. -/
noncomputable def clamp_polygons (tiles : List Tile) : List Tile :=
  tiles.map (fun tile =>
    { tile with polygons :=
        tile.polygons.map (fun p => clamp_polygon p tile.vertices.exterior) })

/-! ## mesh_generator.rs -/

/-- `DEFAULT_FIBONACCI_POINT_COUNT` (mesh_generator.rs). -/
def DEFAULT_FIBONACCI_POINT_COUNT : ℕ := 3000

/-- `PolygonMeshData` (mesh_generator.rs): mesh vertices plus flattened
triangle indices. -/
structure PolygonMeshData where
  vertices : List Vec3
  triangles : List ℕ

/-- The conversion loop of `get_mesh_points` (mesh_generator.rs lines
154–158): convert each 2D coordinate with `ll_to_cartesian`, propagating
the first error. -/
noncomputable def to_cartesian_list : List Coord → Except GeoTilerError (List Vec3)
  | [] => .ok []
  | c :: rest =>
    match ll_to_cartesian c.x c.y with
    | .error e => .error e
    | .ok v =>
      match to_cartesian_list rest with
      | .error e => .error e
      | .ok vs => .ok (v :: vs)

/-- Rust `f64::to_degrees`. -/
noncomputable def to_degrees (r : ℝ) : ℝ := r * (180 / π)

open Classical in
/-- `get_mesh_points` (mesh_generator.rs).  The external point-in-polygon
test of `d3_geo_rs` is passed in as `contains` (applied to the outer ring
and a radian sample point). -/
noncomputable def get_mesh_points (contains : List Coord → Coord → Bool)
    (polygon : Polygon) : Except GeoTilerError (List Vec3) :=
  if polygon.exterior = [] then
    .error (.EmptyPointSetError "Outer ring cannot be empty")
  else if polygon.exterior.length < 3 then
    .error (.MeshGenerationError "Outer ring must have at least 3 points to form a valid polygon")
  else
    match fibonacci_sphere DEFAULT_FIBONACCI_POINT_COUNT with
    | .error e => .error e
    | .ok fibonacci_points =>
      let mesh_points_2d := polygon.exterior ++
        (fibonacci_points.filter (fun p => contains polygon.exterior p)).map
          (fun p => ⟨to_degrees p.x, to_degrees p.y, true, true⟩)
      to_cartesian_list mesh_points_2d

/-- The constraint-edge loop of `generate_polygon_feature_mesh`
(mesh_generator.rs lines 73–80): one edge per index `i` from
`num_points - 1` down to `0`, connecting `i` to its predecessor
`(i + num_points - 1) % num_points`. -/
def boundary_edges (num_points : ℕ) : List (ℕ × ℕ) :=
  (List.range num_points).reverse.map
    (fun i => (i, (i + num_points - 1) % num_points))

/-- The projection loop of `generate_polygon_feature_mesh`
(mesh_generator.rs lines 86–93). -/
noncomputable def project_list : List Vec3 → Except GeoTilerError (List Coord)
  | [] => .ok []
  | p :: rest =>
    match stereographic_projection p with
    | .error e => .error e
    | .ok c =>
      match project_list rest with
      | .error e => .error e
      | .ok cs => .ok (c :: cs)

/-- `generate_polygon_feature_mesh` (mesh_generator.rs).  The external
constrained Delaunay triangulation of `ghx_constrained_delaunay` is passed
in as `triangulate` (2D points plus constraint edges in, triangle index
triples or an error message out). -/
noncomputable def generate_polygon_feature_mesh
    (contains : List Coord → Coord → Bool)
    (rotBetween : Vec3 → Vec3 → Option (Vec3 → Vec3))
    (triangulate : List Coord → List (ℕ × ℕ) → Except String (List (ℕ × ℕ × ℕ)))
    (polygon : Polygon) : Except GeoTilerError PolygonMeshData :=
  let num_points := polygon.exterior.length
  match get_mesh_points contains polygon with
  | .error e => .error e
  | .ok mesh_points =>
    let edges := boundary_edges num_points
    match rotate_points_to_south_pole rotBetween mesh_points with
    | .error e => .error e
    | .ok rotated_points =>
      match project_list rotated_points with
      | .error e => .error e
      | .ok projected_points =>
        match triangulate projected_points edges with
        | .error err => .error (.TriangulationError err)
        | .ok delaunay_triangles =>
          .ok { vertices := mesh_points,
                triangles := delaunay_triangles.flatMap
                  (fun t => [t.1, t.2.1, t.2.2]) }

/-- The linearity part of the `nalgebra` rotation contract: a
`Rotation3` acts as a linear map. -/
def IsLinearMap3 (R : Vec3 → Vec3) : Prop :=
  (∀ u v, R (v3add u v) = v3add (R u) (R v)) ∧
  (∀ (a : ℝ) v, R (v3smul a v) = v3smul a (R v))

/-- The isometry part of the `nalgebra` rotation contract: a `Rotation3`
preserves the Euclidean norm. -/
def IsIsometry3 (R : Vec3 → Vec3) : Prop := ∀ v, norm3 (R v) = norm3 v

/-- A ring is closed in the `geo` sense: its first and last coordinates
agree componentwise (the empty ring counts as closed). -/
def ring_closed (l : List Coord) : Prop :=
  ∀ h : l ≠ [], coordEq (l.head h) (l.getLast h)

/-- No segment between consecutive ring coordinates is longer than
`maxd`. -/
def segments_within (maxd : ℝ) (l : List Coord) : Prop :=
  List.Chain' (fun a b => distance_between a b ≤ maxd) l

/-! ## Claim C1: grid generation -/

/-- Membership in a `step_by` range. -/
theorem mem_step_by (lo hi : ℤ) (s : ℕ) (i : ℤ) :
    i ∈ step_by lo hi s ↔
      ∃ k : ℕ, k < ((hi - lo).toNat + s - 1) / s ∧ i = lo + (k : ℤ) * (s : ℤ) := by
  simp only [step_by, List.mem_map, List.mem_range]
  constructor
  · rintro ⟨k, hk, rfl⟩
    exact ⟨k, hk, rfl⟩
  · rintro ⟨k, hk, rfl⟩
    exact ⟨k, hk, rfl⟩

/-- For a positive divisor of `n`, the ceiling-division count collapses to
exact division. -/
theorem ceil_div_of_dvd (n s : ℕ) (hs : 0 < s) (hd : s ∣ n) :
    (n + s - 1) / s = n / s := by
  rcases hd with ⟨q, rfl⟩
  have h1 : s * q + s - 1 = s * q + (s - 1) := by omega
  rw [h1, Nat.mul_add_div hs, Nat.div_eq_of_lt (by omega), Nat.add_zero,
    Nat.mul_div_cancel_left _ hs]

/-- Length of the grid comprehension: outer count times inner count. -/
theorem length_flatMap_map {α β γ : Type} (l : List α) (m : List β) (f : α → β → γ) :
    (l.flatMap (fun i => m.map (f i))).length = l.length * m.length := by
  induction l with
  | nil => simp
  | cons a l ih => simp [List.flatMap_cons, ih, Nat.succ_mul, Nat.add_comm]

/-- `make_tile` is injective in its cell indices. -/
theorem make_tile_inj {i j i' j' : ℤ} {s : ℕ}
    (h : make_tile i j s = make_tile i' j' s) : i = i' ∧ j = j' := by
  have hv := congrArg (fun t => t.vertices.exterior) h
  simp only [make_tile] at hv
  have hx : ((i : ℝ)) = ((i' : ℝ)) := congrArg (fun l => (l.headI).x) hv
  have hy : ((j : ℝ)) = ((j' : ℝ)) := congrArg (fun l => (l.headI).y) hv
  exact ⟨by exact_mod_cast hx, by exact_mod_cast hy⟩

/-- Every point of `[lo, lo + n·s]` lies in one of the `n` step cells. -/
theorem cover_interval (lo : ℤ) (n s : ℕ) (hs : 0 < s) (hn : 0 < n) (x : ℝ)
    (hlo : (lo : ℝ) ≤ x) (hhi : x ≤ ((lo : ℝ) + (n : ℝ) * (s : ℝ))) :
    ∃ k : ℕ, k < n ∧ ((lo : ℝ) + (k : ℝ) * (s : ℝ)) ≤ x ∧
      x ≤ ((lo : ℝ) + ((k : ℝ) + 1) * (s : ℝ)) := by
  have hs' : (0 : ℝ) < (s : ℝ) := by exact_mod_cast hs
  set t : ℤ := ⌊(x - (lo : ℝ)) / (s : ℝ)⌋ with ht
  have ht0 : 0 ≤ t := Int.floor_nonneg.mpr (div_nonneg (by linarith) hs'.le)
  by_cases hcase : t.toNat ≤ n - 1
  · refine ⟨t.toNat, by omega, ?_, ?_⟩
    · have h1 : ((t : ℝ)) ≤ (x - (lo : ℝ)) / (s : ℝ) := Int.floor_le _
      have h2 : ((t.toNat : ℝ)) = ((t : ℝ)) := by exact_mod_cast Int.toNat_of_nonneg ht0
      have h3 : ((t : ℝ)) * (s : ℝ) ≤ x - (lo : ℝ) := by
        have h4 := mul_le_mul_of_nonneg_right h1 hs'.le
        rwa [div_mul_cancel₀ _ (ne_of_gt hs')] at h4
      rw [h2]
      linarith
    · have h1 : (x - (lo : ℝ)) / (s : ℝ) < (t : ℝ) + 1 := Int.lt_floor_add_one _
      have h2 : ((t.toNat : ℝ)) = ((t : ℝ)) := by exact_mod_cast Int.toNat_of_nonneg ht0
      have h3 : x - (lo : ℝ) < ((t : ℝ) + 1) * (s : ℝ) := by
        have h4 := mul_lt_mul_of_pos_right h1 hs'
        rwa [div_mul_cancel₀ _ (ne_of_gt hs')] at h4
      rw [h2]
      linarith
  · push_neg at hcase
    refine ⟨n - 1, by omega, ?_, ?_⟩
    · have htn : (n : ℤ) ≤ t := by omega
      have h1 : ((t : ℝ)) ≤ (x - (lo : ℝ)) / (s : ℝ) := Int.floor_le _
      have h2 : ((n : ℝ)) ≤ ((t : ℝ)) := by exact_mod_cast htn
      have h3 : ((n : ℝ)) * (s : ℝ) ≤ x - (lo : ℝ) := by
        have h4 : ((n : ℝ)) ≤ (x - (lo : ℝ)) / (s : ℝ) := le_trans h2 h1
        have h5 := mul_le_mul_of_nonneg_right h4 hs'.le
        rwa [div_mul_cancel₀ _ (ne_of_gt hs')] at h5
      have h5 : (((n - 1 : ℕ) : ℝ)) = (n : ℝ) - 1 := by
        have : (1 : ℕ) ≤ n := hn
        push_cast [Nat.cast_sub this]
        ring
    -- lo + (n-1)·s ≤ lo + n·s - s ≤ x since x ≥ lo + n·s (h3) and s > 0
      rw [h5]
      nlinarith [h3, hs']
    · have h5 : (((n - 1 : ℕ) : ℝ)) = (n : ℝ) - 1 := by
        have : (1 : ℕ) ≤ n := hn
        push_cast [Nat.cast_sub this]
        ring
      rw [h5]
      have : ((n : ℝ) - 1 + 1) * (s : ℝ) = (n : ℝ) * (s : ℝ) := by ring
      rw [this]
      exact hhi

/-- Two distinct `step_by` values differ by at least `s`. -/
theorem step_by_gap {lo : ℤ} {s : ℕ} {k1 k2 : ℕ} (_hs : 0 < s) (hne : k1 ≠ k2) :
    (lo + (k1 : ℤ) * (s : ℤ)) + (s : ℤ) ≤ lo + (k2 : ℤ) * (s : ℤ) ∨
    (lo + (k2 : ℤ) * (s : ℤ)) + (s : ℤ) ≤ lo + (k1 : ℤ) * (s : ℤ) := by
  rcases Nat.lt_or_ge k1 k2 with h | h
  · left
    have : (k1 : ℤ) + 1 ≤ (k2 : ℤ) := by exact_mod_cast h
    nlinarith [this]
  · right
    have hlt : k2 < k1 := by omega
    have : (k2 : ℤ) + 1 ≤ (k1 : ℤ) := by exact_mod_cast hlt
    nlinarith [this]

/-- **C1.** `generate_grid step` fails with a grid-configuration error
exactly when `step = 0`, `step > 180`, `360 % step ≠ 0` or
`180 % step ≠ 0`.  For every other `step` it returns exactly
`(360/step)·(180/step)` tiles, one per `(step × step)`-degree cell (the
grid is exactly the set of `make_tile i j step` for the stepped cell
origins), each with an empty fragment list; the union of the tile
rectangles covers `[-180,180] × [-90,90]` and the open interiors of
distinct tiles' rectangles are pairwise disjoint. -/
theorem generate_grid_spec (step : ℕ) :
    ((∃ m, generate_grid step = .error (.GridGenerationError m)) ↔
      (step = 0 ∨ step > 180 ∨ 360 % step ≠ 0 ∨ 180 % step ≠ 0)) ∧
    (∀ g, generate_grid step = .ok g →
      g.length = (360 / step) * (180 / step) ∧
      (∀ t ∈ g, t.polygons = []) ∧
      (∀ t : Tile, t ∈ g ↔ ∃ i j : ℤ,
        i ∈ step_by (-180) 180 step ∧ j ∈ step_by (-90) 90 step ∧
        t = make_tile i j step) ∧
      (∀ x y : ℝ, -180 ≤ x → x ≤ 180 → -90 ≤ y → y ≤ 90 →
        ∃ i j : ℤ, make_tile i j step ∈ g ∧
          (i : ℝ) ≤ x ∧ x ≤ (i : ℝ) + (step : ℝ) ∧
          (j : ℝ) ≤ y ∧ y ≤ (j : ℝ) + (step : ℝ)) ∧
      (∀ i1 j1 i2 j2 : ℤ, make_tile i1 j1 step ∈ g → make_tile i2 j2 step ∈ g →
        make_tile i1 j1 step ≠ make_tile i2 j2 step →
        ∀ x y : ℝ, ¬(((i1 : ℝ) < x ∧ x < (i1 : ℝ) + (step : ℝ) ∧
                      (j1 : ℝ) < y ∧ y < (j1 : ℝ) + (step : ℝ)) ∧
                     ((i2 : ℝ) < x ∧ x < (i2 : ℝ) + (step : ℝ) ∧
                      (j2 : ℝ) < y ∧ y < (j2 : ℝ) + (step : ℝ))))) := by
  by_cases h0 : step = 0
  · refine ⟨⟨fun _ => Or.inl h0, fun _ => ⟨_, by rw [generate_grid, if_pos h0]⟩⟩,
      fun g hg => ?_⟩
    rw [generate_grid, if_pos h0] at hg
    exact Except.noConfusion hg
  · by_cases h180 : step > 180
    · refine ⟨⟨fun _ => Or.inr (Or.inl h180),
        fun _ => ⟨"Step size is too large. Maximum allowed is 180 degrees", ?_⟩⟩,
        fun g hg => ?_⟩
      · rw [generate_grid, if_neg h0, if_pos h180]
      · rw [generate_grid, if_neg h0, if_pos h180] at hg
        exact Except.noConfusion hg
    · by_cases h360 : 360 % step = 0
      · by_cases h90 : 180 % step = 0
        · -- successful configuration
          have hs : 0 < step := Nat.pos_of_ne_zero h0
          have hd360 : step ∣ 360 := Nat.dvd_of_mod_eq_zero h360
          have hd180 : step ∣ 180 := Nat.dvd_of_mod_eq_zero h90
          have hokG : generate_grid step =
              .ok ((step_by (-180) 180 step).flatMap (fun i =>
                (step_by (-90) 90 step).map (fun j => make_tile i j step))) := by
            rw [generate_grid, if_neg h0, if_neg h180,
              if_neg (not_not.mpr h360), if_neg (not_not.mpr h90)]
          have hN360 : ((180 - (-180) : ℤ)).toNat + step - 1 = 360 + step - 1 := by
            have h : ((180 - (-180) : ℤ)).toNat = 360 := by decide
            rw [h]
          have hN180 : ((90 - (-90) : ℤ)).toNat + step - 1 = 180 + step - 1 := by
            have h : ((90 - (-90) : ℤ)).toNat = 180 := by decide
            rw [h]
          have hnx : (((180 : ℤ) - (-180)).toNat + step - 1) / step = 360 / step := by
            rw [hN360, ceil_div_of_dvd 360 step hs hd360]
          have hny : (((90 : ℤ) - (-90)).toNat + step - 1) / step = 180 / step := by
            rw [hN180, ceil_div_of_dvd 180 step hs hd180]
          refine ⟨⟨fun ⟨m, hm⟩ => ?_, fun hcon => ?_⟩, fun g hg => ?_⟩
          · rw [hokG] at hm
            exact Except.noConfusion hm
          · rcases hcon with h | h | h | h
            · exact absurd h h0
            · exact absurd h h180
            · exact absurd h360 h
            · exact absurd h90 h
          · rw [hokG] at hg
            injection hg with hg
            subst hg
            have hmem : ∀ t : Tile,
                t ∈ (step_by (-180) 180 step).flatMap (fun i =>
                  (step_by (-90) 90 step).map (fun j => make_tile i j step)) ↔
                ∃ i j : ℤ, i ∈ step_by (-180) 180 step ∧
                  j ∈ step_by (-90) 90 step ∧ t = make_tile i j step := by
              intro t
              simp only [List.mem_flatMap, List.mem_map]
              constructor
              · rintro ⟨i, hi, j, hj, rfl⟩
                exact ⟨i, j, hi, hj, rfl⟩
              · rintro ⟨i, j, hi, hj, rfl⟩
                exact ⟨i, hi, j, hj, rfl⟩
            refine ⟨?_, ?_, hmem, ?_, ?_⟩
            · rw [length_flatMap_map]
              simp only [step_by, List.length_map, List.length_range]
              rw [hnx, hny]
            · intro t ht
              rcases (hmem t).mp ht with ⟨i, j, _, _, rfl⟩
              rfl
            · -- coverage
              intro x y hx1 hx2 hy1 hy2
              have hnxpos : 0 < 360 / step := Nat.div_pos (by omega) hs
              have hnypos : 0 < 180 / step := Nat.div_pos (by omega) hs
              have h360c : ((360 / step : ℕ) : ℝ) * (step : ℝ) = 360 := by
                have h6 : 360 / step * step = 360 := Nat.div_mul_cancel hd360
                exact_mod_cast congrArg (fun n : ℕ => (n : ℝ)) h6
              have h180c : ((180 / step : ℕ) : ℝ) * (step : ℝ) = 180 := by
                have h6 : 180 / step * step = 180 := Nat.div_mul_cancel hd180
                exact_mod_cast congrArg (fun n : ℕ => (n : ℝ)) h6
              obtain ⟨k, hk, hkl, hku⟩ :=
                cover_interval (-180) (360 / step) step hs hnxpos x
                  (by push_cast; linarith) (by push_cast; rw [h360c]; linarith)
              obtain ⟨l, hl, hll, hlu⟩ :=
                cover_interval (-90) (180 / step) step hs hnypos y
                  (by push_cast; linarith) (by push_cast; rw [h180c]; linarith)
              refine ⟨-180 + (k : ℤ) * (step : ℤ), -90 + (l : ℤ) * (step : ℤ),
                (hmem _).mpr ⟨_, _, ?_, ?_, rfl⟩, ?_, ?_, ?_, ?_⟩
              · exact (mem_step_by _ _ _ _).mpr ⟨k, by rw [hnx]; exact hk, rfl⟩
              · exact (mem_step_by _ _ _ _).mpr ⟨l, by rw [hny]; exact hl, rfl⟩
              · push_cast
                push_cast at hkl
                linarith
              · push_cast
                push_cast at hku
                linarith
              · push_cast
                push_cast at hll
                linarith
              · push_cast
                push_cast at hlu
                linarith
            · -- no overlap between distinct tiles
              rintro i1 j1 i2 j2 hm1 hm2 hneq x y
                ⟨⟨ha1, ha2, ha3, ha4⟩, hb1, hb2, hb3, hb4⟩
              rcases (hmem _).mp hm1 with ⟨i1', j1', hi1, hj1, heq1⟩
              obtain ⟨rfl, rfl⟩ := make_tile_inj heq1
              rcases (hmem _).mp hm2 with ⟨i2', j2', hi2, hj2, heq2⟩
              obtain ⟨rfl, rfl⟩ := make_tile_inj heq2
              rcases (mem_step_by _ _ _ _).mp hi1 with ⟨k1, _, rfl⟩
              rcases (mem_step_by _ _ _ _).mp hj1 with ⟨l1, _, rfl⟩
              rcases (mem_step_by _ _ _ _).mp hi2 with ⟨k2, _, rfl⟩
              rcases (mem_step_by _ _ _ _).mp hj2 with ⟨l2, _, rfl⟩
              have hpair : k1 ≠ k2 ∨ l1 ≠ l2 := by
                by_contra hcon
                push_neg at hcon
                exact hneq (by rw [hcon.1, hcon.2])
              rcases hpair with hne | hne
              · rcases @step_by_gap (-180) _ _ _ hs hne with hgap | hgap
                · have hgapR : ((-180 + (k1 : ℤ) * (step : ℤ) : ℤ) : ℝ) + (step : ℝ) ≤
                      ((-180 + (k2 : ℤ) * (step : ℤ) : ℤ) : ℝ) := by
                    exact_mod_cast hgap
                  linarith [ha2, hb1, hgapR]
                · have hgapR : ((-180 + (k2 : ℤ) * (step : ℤ) : ℤ) : ℝ) + (step : ℝ) ≤
                      ((-180 + (k1 : ℤ) * (step : ℤ) : ℤ) : ℝ) := by
                    exact_mod_cast hgap
                  linarith [hb2, ha1, hgapR]
              · rcases @step_by_gap (-90) _ _ _ hs hne with hgap | hgap
                · have hgapR : ((-90 + (l1 : ℤ) * (step : ℤ) : ℤ) : ℝ) + (step : ℝ) ≤
                      ((-90 + (l2 : ℤ) * (step : ℤ) : ℤ) : ℝ) := by
                    exact_mod_cast hgap
                  linarith [ha4, hb3, hgapR]
                · have hgapR : ((-90 + (l2 : ℤ) * (step : ℤ) : ℤ) : ℝ) + (step : ℝ) ≤
                      ((-90 + (l1 : ℤ) * (step : ℤ) : ℤ) : ℝ) := by
                    exact_mod_cast hgap
                  linarith [hb4, ha3, hgapR]
        · refine ⟨⟨fun _ => Or.inr (Or.inr (Or.inr h90)),
            fun _ => ⟨"Step size does not evenly divide 180 degrees. This would result in incomplete latitude coverage", ?_⟩⟩,
            fun g hg => ?_⟩
          · rw [generate_grid, if_neg h0, if_neg h180, if_neg (not_not.mpr h360),
              if_pos h90]
          · rw [generate_grid, if_neg h0, if_neg h180, if_neg (not_not.mpr h360),
              if_pos h90] at hg
            exact Except.noConfusion hg
      · refine ⟨⟨fun _ => Or.inr (Or.inr (Or.inl h360)),
          fun _ => ⟨"Step size does not evenly divide 360 degrees. This would result in incomplete longitude coverage", ?_⟩⟩,
          fun g hg => ?_⟩
        · rw [generate_grid, if_neg h0, if_neg h180, if_pos h360]
        · rw [generate_grid, if_neg h0, if_neg h180, if_pos h360] at hg
          exact Except.noConfusion hg

/-- Witness for C1 at `step = 90`: a valid configuration, producing the
8-tile grid (`4 × 2` cells). -/
theorem generate_grid_spec_witness :
    ¬((90 : ℕ) = 0 ∨ (90 : ℕ) > 180 ∨ 360 % 90 ≠ 0 ∨ 180 % 90 ≠ 0) ∧
    generate_grid 90 = .ok ((step_by (-180) 180 90).flatMap (fun i =>
      (step_by (-90) 90 90).map (fun j => make_tile i j 90))) ∧
    ((step_by (-180) 180 90).flatMap (fun i =>
      (step_by (-90) 90 90).map (fun j => make_tile i j 90))).length =
      (360 / 90) * (180 / 90) := by
  have hok : generate_grid 90 = .ok ((step_by (-180) 180 90).flatMap (fun i =>
      (step_by (-90) 90 90).map (fun j => make_tile i j 90))) := by
    rw [generate_grid, if_neg (by norm_num), if_neg (by norm_num),
      if_neg (by norm_num), if_neg (by norm_num)]
  exact ⟨by decide, hok, ((generate_grid_spec 90).2 _ hok).1⟩

/-! ## Claim C8: fibonacci sphere -/

/-- The floored remainder lands in `[0, y)` for a positive modulus. -/
theorem fmod_pos_mem (x y : ℝ) (hy : 0 < y) : fmod_pos x y ∈ Set.Ico 0 y := by
  have hy' : y ≠ 0 := ne_of_gt hy
  have hrep : fmod_pos x y = y * Int.fract (x / y) := by
    rw [fmod_pos, Int.fract]
    field_simp
  constructor
  · rw [hrep]
    exact mul_nonneg hy.le (Int.fract_nonneg _)
  · rw [hrep]
    calc y * Int.fract (x / y) < y * 1 :=
          (mul_lt_mul_left hy).mpr (Int.fract_lt_one _)
    _ = y := mul_one y

/-- The longitude wrap always lands in `(-π, π]`. -/
theorem wrap_longitude_mem (theta : ℝ) : wrap_longitude theta ∈ Set.Ioc (-π) π := by
  have h2pi : (0 : ℝ) < 2 * π := by positivity
  have hm := fmod_pos_mem theta (2 * π) h2pi
  rw [wrap_longitude]
  rcases hm with ⟨hm0, hm2⟩
  by_cases hgt : fmod_pos theta (2 * π) > π
  · rw [if_pos hgt]
    constructor
    · linarith
    · linarith [Real.pi_pos]
  · rw [if_neg hgt]
    push_neg at hgt
    constructor
    · linarith [Real.pi_pos]
    · exact hgt

/-- **C8.** `fibonacci_sphere 0` fails with a sampling error; for every
`n ≥ 1` it returns exactly `n` points, where point `i` has latitude
`asin (1 − 2·i / max (n−1) 1)` lying in `[−π/2, π/2]` and longitude
`φ·i` wrapped into `(−π, π]`, with `φ = π(√5 − 1)`. -/
theorem fibonacci_sphere_spec (n : ℕ) :
    ((∃ msg, fibonacci_sphere n = .error (.FibonacciError msg)) ↔ n = 0) ∧
    (∀ pts, fibonacci_sphere n = .ok pts →
      pts.length = n ∧
      ∀ j (hj : j < pts.length),
        (pts.get ⟨j, hj⟩).x = wrap_longitude (π * (Real.sqrt 5 - 1) * (j : ℝ)) ∧
        (pts.get ⟨j, hj⟩).x ∈ Set.Ioc (-π) π ∧
        (pts.get ⟨j, hj⟩).y = Real.arcsin (1 - 2 * (j : ℝ) / max ((n : ℝ) - 1) 1) ∧
        (pts.get ⟨j, hj⟩).y ∈ Set.Icc (-(π / 2)) (π / 2)) := by
  have hden : (if n > 1 then (n : ℝ) - 1 else 1) = max ((n : ℝ) - 1) 1 := by
    by_cases h1 : n > 1
    · rw [if_pos h1, max_eq_left]
      have : (2 : ℝ) ≤ (n : ℝ) := by exact_mod_cast h1
      linarith
    · rw [if_neg h1, max_eq_right]
      have : (n : ℝ) ≤ 1 := by
        have : n ≤ 1 := by omega
        exact_mod_cast this
      linarith
  by_cases h0 : n = 0
  · subst h0
    refine ⟨⟨fun _ => rfl, fun _ => ⟨_, rfl⟩⟩, fun pts hpts => ?_⟩
    rw [fibonacci_sphere, if_pos rfl] at hpts
    exact Except.noConfusion hpts
  · have hden_ge : (1 : ℝ) ≤ if n > 1 then (n : ℝ) - 1 else 1 := by
      by_cases h1 : n > 1
      · rw [if_pos h1]
        have : (2 : ℝ) ≤ (n : ℝ) := by exact_mod_cast h1
        linarith
      · rw [if_neg h1]
    have habs : ¬ |if n > 1 then (n : ℝ) - 1 else 1| < f64_EPSILON := by
      rw [abs_of_pos (by linarith), f64_EPSILON]
      intro hcon
      have : (1 / 2 ^ 52 : ℝ) ≤ 1 := by norm_num
      linarith
    have hok : fibonacci_sphere n =
        .ok ((List.range n).map (fun (i : ℕ) =>
          (⟨wrap_longitude (π * (Real.sqrt 5 - 1) * (i : ℝ)),
            Real.arcsin (1 - ((i : ℝ) / (if n > 1 then (n : ℝ) - 1 else 1)) * 2),
            true, true⟩ : Coord))) := by
      rw [fibonacci_sphere, if_neg h0, if_neg habs]
    refine ⟨⟨fun ⟨msg, hmsg⟩ => ?_, fun h => absurd h h0⟩, fun pts hpts => ?_⟩
    · rw [hok] at hmsg
      exact Except.noConfusion hmsg
    · rw [hok] at hpts
      injection hpts with hpts
      subst hpts
      refine ⟨by simp, fun j hj => ?_⟩
      simp only [List.length_map, List.length_range] at hj
      simp only [List.get_eq_getElem, List.getElem_map, List.getElem_range]
      refine ⟨trivial, wrap_longitude_mem _, ?_, Real.arcsin_mem_Icc _⟩
      rw [hden]
      congr 1
      ring

/-- Witness for C8 at `n = 1`: one point, at longitude `0` and latitude
`arcsin 1`, both within the claimed ranges. -/
theorem fibonacci_sphere_spec_witness :
    fibonacci_sphere 1 = .ok [⟨wrap_longitude (π * (Real.sqrt 5 - 1) * (0 : ℝ)),
      Real.arcsin (1 - ((0 : ℝ) / 1) * 2), true, true⟩] ∧
    ¬ (1 = 0) ∧
    wrap_longitude (π * (Real.sqrt 5 - 1) * (0 : ℝ)) ∈ Set.Ioc (-π) π ∧
    Real.arcsin (1 - 2 * (0 : ℝ) / max ((1 : ℝ) - 1) 1) ∈ Set.Icc (-(π / 2)) (π / 2) := by
  have hok : fibonacci_sphere 1 = .ok [⟨wrap_longitude (π * (Real.sqrt 5 - 1) * (0 : ℝ)),
      Real.arcsin (1 - ((0 : ℝ) / 1) * 2), true, true⟩] := by
    rw [fibonacci_sphere]
    rw [if_neg (by norm_num), if_neg (by rw [if_neg (by norm_num)]; rw [f64_EPSILON]; norm_num)]
    simp [List.range_succ]
  have h := (fibonacci_sphere_spec 1).2 _ hok
  have hj := h.2 0 (by simp)
  exact ⟨hok, by norm_num, hj.2.1, by simpa using hj.2.2.2⟩

/-! ## Claim C5: longitude/latitude to Cartesian -/

/-- Sum-of-squares identity for the spherical parametrisation. -/
theorem cart_sq_sum (a b : ℝ) :
    (Real.cos b * Real.cos a) ^ 2 + (Real.cos b * Real.sin a) ^ 2 +
      Real.sin b ^ 2 = 1 := by
  have h1 := Real.sin_sq_add_cos_sq a
  have h2 := Real.sin_sq_add_cos_sq b
  nlinarith [h1, h2]

/-- **C5 (amended).** `ll_to_cartesian` returns a coordinate-range error
exactly when `|lon| > 180.1` or `|lat| > 90.1`.  Otherwise it snaps values
that exceed `±180`/`±90` by at most `1e-10` back to the exact boundary
(values already inside the valid range are left unchanged — they are *not*
snapped, which is where the original claim fails), converts the sanitized
degrees to radians, returns
`(cos lat·cos lon, cos lat·sin lon, sin lat)`, and every accepted input
yields a vector of norm exactly `1` (hence within `1e-9` of `1`). -/
theorem ll_to_cartesian_spec (lon lat : ℝ) :
    ((∃ a b, ll_to_cartesian lon lat = .error (.CoordinateRangeError a b)) ↔
      (|lon| > 180.1 ∨ |lat| > 90.1)) ∧
    ((180 < lon → lon ≤ 180 + 1e-10 →
        (sanitize_coordinates lon lat 1e-10).1 = 180) ∧
     (lon < -180 → -180 - 1e-10 ≤ lon →
        (sanitize_coordinates lon lat 1e-10).1 = -180) ∧
     (-180 ≤ lon → lon ≤ 180 →
        (sanitize_coordinates lon lat 1e-10).1 = lon) ∧
     (90 < lat → lat ≤ 90 + 1e-10 →
        (sanitize_coordinates lon lat 1e-10).2 = 90) ∧
     (lat < -90 → -90 - 1e-10 ≤ lat →
        (sanitize_coordinates lon lat 1e-10).2 = -90) ∧
     (-90 ≤ lat → lat ≤ 90 →
        (sanitize_coordinates lon lat 1e-10).2 = lat)) ∧
    (¬ (|lon| > 180.1 ∨ |lat| > 90.1) →
      ll_to_cartesian lon lat = .ok
        (Real.cos ((sanitize_coordinates lon lat 1e-10).2 * π / 180) *
           Real.cos ((sanitize_coordinates lon lat 1e-10).1 * π / 180),
         Real.cos ((sanitize_coordinates lon lat 1e-10).2 * π / 180) *
           Real.sin ((sanitize_coordinates lon lat 1e-10).1 * π / 180),
         Real.sin ((sanitize_coordinates lon lat 1e-10).2 * π / 180))) ∧
    (∀ v, ll_to_cartesian lon lat = .ok v →
      v.1 ^ 2 + v.2.1 ^ 2 + v.2.2 ^ 2 = 1 ∧
      Real.sqrt (v.1 ^ 2 + v.2.1 ^ 2 + v.2.2 ^ 2) = 1) := by
  have hcond : (|lon| > 180 + 0.1 ∨ |lat| > 90 + 0.1) ↔
      (|lon| > 180.1 ∨ |lat| > 90.1) := by norm_num
  have hokform : ¬ (|lon| > 180.1 ∨ |lat| > 90.1) →
      ll_to_cartesian lon lat = .ok
        (Real.cos ((sanitize_coordinates lon lat 1e-10).2 * π / 180) *
           Real.cos ((sanitize_coordinates lon lat 1e-10).1 * π / 180),
         Real.cos ((sanitize_coordinates lon lat 1e-10).2 * π / 180) *
           Real.sin ((sanitize_coordinates lon lat 1e-10).1 * π / 180),
         Real.sin ((sanitize_coordinates lon lat 1e-10).2 * π / 180)) := by
    intro h
    rw [ll_to_cartesian, if_neg (by rw [hcond]; exact h)]
  refine ⟨⟨fun ⟨a, b, hab⟩ => ?_, fun h => ?_⟩, ⟨?_, ?_, ?_, ?_, ?_, ?_⟩, hokform, ?_⟩
  · by_contra hc
    rw [hokform hc] at hab
    exact Except.noConfusion hab
  · refine ⟨lon, lat, ?_⟩
    rw [ll_to_cartesian, if_pos (hcond.mpr h)]
  · intro h1 h2
    rw [sanitize_coordinates]
    simp only [if_pos (And.intro h1 h2)]
  · intro h1 h2
    rw [sanitize_coordinates]
    rw [if_neg (by intro hx; linarith [hx.1]), if_pos (And.intro h1 h2)]
  · intro h1 h2
    rw [sanitize_coordinates]
    rw [if_neg (by intro hx; linarith [hx.1]), if_neg (by intro hx; linarith [hx.1])]
  · intro h1 h2
    rw [sanitize_coordinates]
    simp only [if_pos (And.intro h1 h2)]
  · intro h1 h2
    rw [sanitize_coordinates]
    rw [if_neg (show ¬ (lat > 90 ∧ lat ≤ 90 + 1e-10) from fun hx => by linarith [hx.1])]
    simp only [if_pos (And.intro h1 h2)]
  · intro h1 h2
    rw [sanitize_coordinates]
    rw [if_neg (show ¬ (lat > 90 ∧ lat ≤ 90 + 1e-10) from fun hx => by linarith [hx.1])]
    simp only [if_neg (show ¬ (lat < -90 ∧ -90 - 1e-10 ≤ lat) from fun hx => by linarith [hx.1])]
  · intro v hv
    by_cases hc : |lon| > 180.1 ∨ |lat| > 90.1
    · rw [ll_to_cartesian, if_pos (hcond.mpr hc)] at hv
      exact Except.noConfusion hv
    · rw [hokform hc] at hv
      injection hv with hv
      subst hv
      refine ⟨cart_sq_sum _ _, ?_⟩
      rw [cart_sq_sum _ _, Real.sqrt_one]

/-- **C5 counterexample.** The input longitude `180 − 1e-10` is within
`1e-10` of `180`, so the claim requires it to be snapped to exactly `180`
(whose `y` component would be `cos 0 · sin (180·π/180) = 0`), but the code
leaves in-range values untouched and returns a strictly positive `y`
component. -/
theorem ll_to_cartesian_snap_counterexample :
    ll_to_cartesian (180 - 1e-10) 0 =
      .ok (Real.cos (0 * π / 180) * Real.cos ((180 - 1e-10) * π / 180),
           Real.cos (0 * π / 180) * Real.sin ((180 - 1e-10) * π / 180),
           Real.sin (0 * π / 180)) ∧
    Real.cos (0 * π / 180) * Real.sin ((180 - 1e-10) * π / 180) ≠
      Real.cos (0 * π / 180) * Real.sin (180 * π / 180) := by
  have hs : sanitize_coordinates (180 - 1e-10) 0 1e-10 = (180 - 1e-10, 0) := by
    rw [sanitize_coordinates]
    rw [if_neg (by intro hx; linarith [hx.1]), if_neg (by intro hx; linarith [hx.1])]
    rw [if_neg (by intro hx; linarith [hx.1]), if_neg (by intro hx; linarith [hx.1])]
  constructor
  · have hrange : ¬ (|(180 - 1e-10 : ℝ)| > 180.1 ∨ |(0 : ℝ)| > 90.1) := by
      push_neg
      refine ⟨?_, by norm_num⟩
      rw [abs_le]
      constructor <;> norm_num
    have h := (ll_to_cartesian_spec (180 - 1e-10) 0).2.2.1 hrange
    rw [hs] at h
    exact h
  · have hpi : (180 : ℝ) * π / 180 = π := by ring
    have hzero : Real.sin (180 * π / 180) = 0 := by rw [hpi, Real.sin_pi]
    have hcos : Real.cos (0 * π / 180) = 1 := by norm_num
    have hposθ : (0 : ℝ) < (180 - 1e-10) * π / 180 := by
      have : (0 : ℝ) < 180 - 1e-10 := by norm_num
      positivity
    have hltθ : (180 - 1e-10) * π / 180 < π := by
      nlinarith [Real.pi_pos]
    have hsin : 0 < Real.sin ((180 - 1e-10) * π / 180) :=
      Real.sin_pos_of_pos_of_lt_pi hposθ hltθ
    rw [hzero, hcos, one_mul, one_mul]
    exact ne_of_gt hsin

/-- Witness for C5 at `(0, 0)`: accepted, left unsnapped, and the result
is the exact spherical parametrisation of `(0, 0)` with norm 1. -/
theorem ll_to_cartesian_spec_witness :
    (¬ (|(0 : ℝ)| > 180.1 ∨ |(0 : ℝ)| > 90.1)) ∧
    (sanitize_coordinates 0 0 1e-10).1 = 0 ∧
    (sanitize_coordinates 0 0 1e-10).2 = 0 ∧
    ll_to_cartesian 0 0 = .ok
      (Real.cos ((sanitize_coordinates 0 0 1e-10).2 * π / 180) *
         Real.cos ((sanitize_coordinates 0 0 1e-10).1 * π / 180),
       Real.cos ((sanitize_coordinates 0 0 1e-10).2 * π / 180) *
         Real.sin ((sanitize_coordinates 0 0 1e-10).1 * π / 180),
       Real.sin ((sanitize_coordinates 0 0 1e-10).2 * π / 180)) :=
  ⟨by norm_num,
   (ll_to_cartesian_spec 0 0).2.1.2.2.1 (by norm_num) (by norm_num),
   (ll_to_cartesian_spec 0 0).2.1.2.2.2.2.2 (by norm_num) (by norm_num),
   (ll_to_cartesian_spec 0 0).2.2.1 (by norm_num)⟩

/-! ## Claim C6: stereographic projection -/

/-- **C6.** `stereographic_projection (x, y, z)` fails with a projection
error exactly when `z` is within machine epsilon of `1.0`; otherwise it
returns `(x/(1−z), y/(1−z))`; in particular the south pole `(0, 0, −1)`
maps to `(0, 0)`. -/
theorem stereographic_projection_spec (x y z : ℝ) :
    ((∃ msg, stereographic_projection (x, y, z) = .error (.ProjectionError msg))
      ↔ |z - 1| < f64_EPSILON) ∧
    (¬ |z - 1| < f64_EPSILON →
      stereographic_projection (x, y, z) = .ok ⟨x / (1 - z), y / (1 - z), true, true⟩) ∧
    stereographic_projection southPole = .ok ⟨0, 0, true, true⟩ := by
  refine ⟨⟨fun h => ?_, fun h => ?_⟩, fun h => ?_, ?_⟩
  · by_contra hc
    rcases h with ⟨msg, hmsg⟩
    simp only [stereographic_projection, if_neg hc] at hmsg
    exact Except.noConfusion hmsg
  · refine ⟨"Cannot project from the north pole (0, 0, 1)", ?_⟩
    simp only [stereographic_projection, if_pos h]
  · simp only [stereographic_projection, if_neg h]
  · have h2 : ¬ |(-1 : ℝ) - 1| < f64_EPSILON := by
      rw [f64_EPSILON]
      norm_num
    simp only [southPole, stereographic_projection, if_neg h2]
    norm_num

/-- Witness for C6: the south pole is accepted and projects to the
origin. -/
theorem stereographic_projection_spec_witness :
    ¬ |(-1 : ℝ) - 1| < f64_EPSILON ∧
    stereographic_projection ((0 : ℝ), (0 : ℝ), (-1 : ℝ)) =
      .ok ⟨0 / (1 - (-1 : ℝ)), 0 / (1 - (-1 : ℝ)), true, true⟩ :=
  ⟨by rw [f64_EPSILON]; norm_num,
   (stereographic_projection_spec 0 0 (-1)).2.1 (by rw [f64_EPSILON]; norm_num)⟩

/-! ## Claim C3: boundary constraint edges -/

/-- **C3.** For a boundary ring of `k` points,
`generate_polygon_feature_mesh` builds (via `boundary_edges`, which it
passes to the triangulator) exactly one constraint edge per boundary edge
over the first `k` vertex indices: the `j`-th emitted edge connects vertex
`i = k − 1 − j` to its predecessor `(i + k − 1) % k`, so edges are emitted
in reverse index order, `i = k − 1` down to `0`. -/
theorem boundary_edges_spec (k j : ℕ) (hj : j < k) :
    (boundary_edges k).length = k ∧
    (boundary_edges k).get ⟨j, by simpa [boundary_edges] using hj⟩ =
      (k - 1 - j, (k - 1 - j + k - 1) % k) := by
  constructor
  · simp [boundary_edges]
  · simp only [boundary_edges, List.get_eq_getElem, List.getElem_map,
      List.getElem_reverse, List.getElem_range, List.length_reverse,
      List.length_range]

/-- Witness for C3 at `k = 4`, `j = 1`: the second emitted edge connects
vertex `2` to vertex `1`. -/
theorem boundary_edges_spec_witness :
    (1 < 4) ∧ boundary_edges 4 = [(3, 2), (2, 1), (1, 0), (0, 3)] ∧
    (boundary_edges 4).get ⟨1, by decide⟩ = (2, 1) := by
  refine ⟨by decide, by decide, ?_⟩
  have h := (boundary_edges_spec 4 1 (by decide)).2
  simpa using h

/-! ## Claim C7: rotation to the south pole -/

/-- Scaling by zero yields the zero vector. -/
theorem v3smul_zero_vec (v : Vec3) : v3smul 0 v = ((0 : ℝ), (0 : ℝ), (0 : ℝ)) := by
  simp [v3smul]

/-- A linear map on `Vec3` sends zero to zero. -/
theorem IsLinearMap3.map_zero {R : Vec3 → Vec3} (hR : IsLinearMap3 R) :
    R ((0 : ℝ), (0 : ℝ), (0 : ℝ)) = ((0 : ℝ), (0 : ℝ), (0 : ℝ)) := by
  have h := hR.2 0 ((0 : ℝ), (0 : ℝ), (0 : ℝ))
  rwa [v3smul_zero_vec, v3smul_zero_vec] at h

/-- A linear map commutes with the component-wise accumulation fold. -/
theorem foldl_v3add_map {R : Vec3 → Vec3} (hR : IsLinearMap3 R) :
    ∀ (l : List Vec3) (init : Vec3),
      (l.map R).foldl v3add (R init) = R (l.foldl v3add init)
  | [], _ => rfl
  | a :: l, init => by
    simp only [List.map_cons, List.foldl_cons]
    rw [← hR.1 init a]
    exact foldl_v3add_map hR l (v3add init a)

/-- A linear map commutes with `v3sum`. -/
theorem v3sum_map {R : Vec3 → Vec3} (hR : IsLinearMap3 R) (l : List Vec3) :
    v3sum (l.map R) = R (v3sum l) := by
  rw [v3sum, v3sum]
  nth_rewrite 1 [← hR.map_zero]
  rw [foldl_v3add_map hR]

/-- A linear map commutes with the centroid. -/
theorem centroid3_map {R : Vec3 → Vec3} (hR : IsLinearMap3 R) (l : List Vec3) :
    centroid3 (l.map R) = R (centroid3 l) := by
  rw [centroid3, centroid3, List.length_map, v3sum_map hR, hR.2]

/-- **C7.** `rotate_points_to_south_pole` fails with an empty-set error on
an empty input, and with a rotation error when the centroid's magnitude is
below epsilon or no rotation can be derived; on success it applies the one
rotation returned by `rotation_between` to every input point, returning a
set of the same length in which (whenever that rotation satisfies the
`nalgebra` contract of being a linear isometry mapping the normalized
centroid to `(0,0,−1)`) each point's distance from the origin equals the
corresponding input point's, and the rotated centroid's direction is
exactly `(0,0,−1)`. -/
theorem rotate_points_to_south_pole_spec
    (rotBetween : Vec3 → Vec3 → Option (Vec3 → Vec3)) (points : List Vec3) :
    (points = [] →
      ∃ m, rotate_points_to_south_pole rotBetween points =
        .error (.EmptyPointSetError m)) ∧
    (points ≠ [] → norm3 (centroid3 points) < f64_EPSILON →
      ∃ m, rotate_points_to_south_pole rotBetween points =
        .error (.RotationError m)) ∧
    (points ≠ [] → ¬ norm3 (centroid3 points) < f64_EPSILON →
      rotBetween (normalize3 (centroid3 points)) southPole = none →
      ∃ m, rotate_points_to_south_pole rotBetween points =
        .error (.RotationError m)) ∧
    (∀ R, points ≠ [] → ¬ norm3 (centroid3 points) < f64_EPSILON →
      rotBetween (normalize3 (centroid3 points)) southPole = some R →
      rotate_points_to_south_pole rotBetween points = .ok (points.map R) ∧
      (points.map R).length = points.length ∧
      (IsIsometry3 R → ∀ j (hj : j < points.length),
        norm3 ((points.map R).get ⟨j, by simpa using hj⟩) =
          norm3 (points.get ⟨j, hj⟩)) ∧
      (IsLinearMap3 R → IsIsometry3 R →
        R (normalize3 (centroid3 points)) = southPole →
        normalize3 (centroid3 (points.map R)) = southPole)) := by
  refine ⟨fun h => ?_, fun h hmag => ?_, fun h hmag hnone => ?_, fun R h hmag hsome => ?_⟩
  · exact ⟨_, by rw [rotate_points_to_south_pole, if_pos h]⟩
  · refine ⟨"Points centroid is effectively zero; cannot determine rotation direction", ?_⟩
    rw [rotate_points_to_south_pole, if_neg h]
    simp only [if_pos hmag]
  · refine ⟨"Failed to compute rotation between points centroid and south pole", ?_⟩
    rw [rotate_points_to_south_pole, if_neg h]
    simp only [if_neg hmag, hnone]
  · have hok : rotate_points_to_south_pole rotBetween points = .ok (points.map R) := by
      rw [rotate_points_to_south_pole, if_neg h]
      simp only [if_neg hmag, hsome]
    refine ⟨hok, List.length_map _ _, fun hiso j hj => ?_, fun hlin hiso hmap => ?_⟩
    · simp only [List.get_eq_getElem, List.getElem_map]
      exact hiso _
    · rw [centroid3_map hlin, normalize3, hiso, ← hlin.2, ← normalize3, hmap]

/-- Witness for C7: the singleton `(0,0,−1)` with the identity as the
derived rotation is accepted, returned unchanged, and its rotated centroid
direction is the south pole. -/
theorem rotate_points_to_south_pole_spec_witness :
    rotate_points_to_south_pole (fun _ _ => some (fun v => v))
      [((0 : ℝ), (0 : ℝ), (-1 : ℝ))] = .ok [((0 : ℝ), (0 : ℝ), (-1 : ℝ))] ∧
    normalize3 (centroid3 ([((0 : ℝ), (0 : ℝ), (-1 : ℝ))].map (fun v => v))) =
      southPole := by
  have hc : centroid3 [((0 : ℝ), (0 : ℝ), (-1 : ℝ))] = ((0 : ℝ), (0 : ℝ), (-1 : ℝ)) := by
    rw [centroid3, v3sum]
    simp [v3add, v3smul]
  have hn : norm3 ((0 : ℝ), (0 : ℝ), (-1 : ℝ)) = 1 := by
    rw [norm3]
    norm_num
  have hnorm : normalize3 (centroid3 [((0 : ℝ), (0 : ℝ), (-1 : ℝ))]) = southPole := by
    rw [hc, normalize3, hn, southPole]
    simp [v3smul]
  have h := (rotate_points_to_south_pole_spec (fun _ _ => some (fun v => v))
      [((0 : ℝ), (0 : ℝ), (-1 : ℝ))]).2.2.2 (fun v => v) (by simp)
      (by rw [hc, hn, f64_EPSILON]; norm_num) rfl
  refine ⟨by simpa using h.1, ?_⟩
  exact h.2.2.2 ⟨fun u v => rfl, fun a v => rfl⟩ (fun v => rfl) hnorm

/-! ## Claim C9: clamping to tile bounds -/

/-- A running-minimum fold only decreases its accumulator. -/
theorem foldl_min_le_init (f : Coord → ℝ) :
    ∀ (l : List Coord) (init : ℝ),
      l.foldl (fun acc c => min acc (f c)) init ≤ init
  | [], _ => le_refl _
  | a :: l, init =>
    le_trans (foldl_min_le_init f l (min init (f a))) (min_le_left _ _)

/-- The running minimum is below every list element. -/
theorem foldl_min_le_mem (f : Coord → ℝ) :
    ∀ (l : List Coord) (init : ℝ) (a : Coord), a ∈ l →
      l.foldl (fun acc c => min acc (f c)) init ≤ f a
  | b :: l, init, a, ha => by
    rcases List.mem_cons.mp ha with h | h
    · subst h
      exact le_trans (foldl_min_le_init f l _) (min_le_right _ _)
    · exact foldl_min_le_mem f l _ a h

/-- A running-maximum fold only increases its accumulator. -/
theorem foldl_max_ge_init (f : Coord → ℝ) :
    ∀ (l : List Coord) (init : ℝ),
      init ≤ l.foldl (fun acc c => max acc (f c)) init
  | [], _ => le_refl _
  | a :: l, init =>
    le_trans (le_max_left _ _) (foldl_max_ge_init f l (max init (f a)))

/-- The running maximum is above every list element. -/
theorem foldl_max_ge_mem (f : Coord → ℝ) :
    ∀ (l : List Coord) (init : ℝ) (a : Coord), a ∈ l →
      f a ≤ l.foldl (fun acc c => max acc (f c)) init
  | b :: l, init, a, ha => by
    rcases List.mem_cons.mp ha with h | h
    · subst h
      exact le_trans (le_max_right _ _) (foldl_max_ge_init f l _)
    · exact foldl_max_ge_mem f l _ a h

/-- On a nonempty tile ring the computed lower bounds do not exceed the
computed upper bounds. -/
theorem ring_bounds_le (ring : List Coord) (hne : ring ≠ []) :
    ring_min_x ring ≤ ring_max_x ring ∧ ring_min_y ring ≤ ring_max_y ring := by
  rcases ring with _ | ⟨a, t⟩
  · exact absurd rfl hne
  · have hax : a ∈ a :: t := List.mem_cons_self a t
    exact ⟨le_trans (foldl_min_le_mem _ _ _ _ hax) (foldl_max_ge_mem _ _ _ _ hax),
           le_trans (foldl_min_le_mem _ _ _ _ hax) (foldl_max_ge_mem _ _ _ _ hax)⟩

/-- **C9.** After `clamp_polygons`, every coordinate of every fragment's
exterior ring of every tile lies within the axis-aligned bounding
rectangle (running min/max of x and y, as computed by the code) of that
tile's own boundary ring. -/
theorem clamp_polygons_spec (tiles : List Tile) (t : Tile)
    (ht : t ∈ clamp_polygons tiles) (hne : t.vertices.exterior ≠ [])
    (p : Polygon) (hp : p ∈ t.polygons) (c : Coord) (hc : c ∈ p.exterior) :
    ring_min_x t.vertices.exterior ≤ c.x ∧
    c.x ≤ ring_max_x t.vertices.exterior ∧
    ring_min_y t.vertices.exterior ≤ c.y ∧
    c.y ≤ ring_max_y t.vertices.exterior := by
  rw [clamp_polygons] at ht
  rcases List.mem_map.mp ht with ⟨t0, ht0, rfl⟩
  simp only at hp hne ⊢
  rcases List.mem_map.mp hp with ⟨p0, hp0, rfl⟩
  rw [clamp_polygon] at hc
  simp only at hc
  rcases List.mem_map.mp hc with ⟨c0, hc0, rfl⟩
  have hb := ring_bounds_le t0.vertices.exterior hne
  refine ⟨le_max_left _ _, ?_, le_max_left _ _, ?_⟩
  · exact max_le hb.1 (min_le_right _ _)
  · exact max_le hb.2 (min_le_right _ _)

/-- Witness for C9: a square tile ring and one out-of-bounds fragment
coordinate `(3, −1)`, clamped to `(2, 0)`, which lies inside the tile's
bounding rectangle. -/
theorem clamp_polygons_spec_witness :
    clamp_polygons [⟨⟨[⟨0, 0, true, true⟩, ⟨2, 0, true, true⟩, ⟨0, 2, true, true⟩,
        ⟨2, 2, true, true⟩, ⟨0, 0, true, true⟩], []⟩,
      [⟨[⟨3, -1, true, true⟩], []⟩]⟩] =
      [⟨⟨[⟨0, 0, true, true⟩, ⟨2, 0, true, true⟩, ⟨0, 2, true, true⟩,
        ⟨2, 2, true, true⟩, ⟨0, 0, true, true⟩], []⟩,
      [⟨[⟨2, 0, true, true⟩], []⟩]⟩] ∧
    ring_min_x [⟨0, 0, true, true⟩, ⟨2, 0, true, true⟩, ⟨0, 2, true, true⟩,
        ⟨2, 2, true, true⟩, ⟨0, 0, true, true⟩] ≤ 2 ∧
    (2 : ℝ) ≤ ring_max_x [⟨0, 0, true, true⟩, ⟨2, 0, true, true⟩, ⟨0, 2, true, true⟩,
        ⟨2, 2, true, true⟩, ⟨0, 0, true, true⟩] ∧
    ring_min_y [⟨0, 0, true, true⟩, ⟨2, 0, true, true⟩, ⟨0, 2, true, true⟩,
        ⟨2, 2, true, true⟩, ⟨0, 0, true, true⟩] ≤ 0 ∧
    (0 : ℝ) ≤ ring_max_y [⟨0, 0, true, true⟩, ⟨2, 0, true, true⟩, ⟨0, 2, true, true⟩,
        ⟨2, 2, true, true⟩, ⟨0, 0, true, true⟩] := by
  have hfm : (0 : ℝ) ≤ f64_MAX ∧ f64_MIN ≤ (0 : ℝ) := by
    rw [f64_MAX, f64_MIN]
    norm_num
  have hminx : ring_min_x [(⟨0, 0, true, true⟩ : Coord), ⟨2, 0, true, true⟩,
      ⟨0, 2, true, true⟩, ⟨2, 2, true, true⟩, ⟨0, 0, true, true⟩] = 0 := by
    rw [ring_min_x]
    simp only [List.foldl_cons, List.foldl_nil]
    rw [min_eq_right hfm.1]
    norm_num
  have hmaxx : ring_max_x [(⟨0, 0, true, true⟩ : Coord), ⟨2, 0, true, true⟩,
      ⟨0, 2, true, true⟩, ⟨2, 2, true, true⟩, ⟨0, 0, true, true⟩] = 2 := by
    rw [ring_max_x]
    simp only [List.foldl_cons, List.foldl_nil]
    rw [max_eq_right hfm.2]
    norm_num
  have hminy : ring_min_y [(⟨0, 0, true, true⟩ : Coord), ⟨2, 0, true, true⟩,
      ⟨0, 2, true, true⟩, ⟨2, 2, true, true⟩, ⟨0, 0, true, true⟩] = 0 := by
    rw [ring_min_y]
    simp only [List.foldl_cons, List.foldl_nil]
    rw [min_eq_right hfm.1]
    norm_num
  have hmaxy : ring_max_y [(⟨0, 0, true, true⟩ : Coord), ⟨2, 0, true, true⟩,
      ⟨0, 2, true, true⟩, ⟨2, 2, true, true⟩, ⟨0, 0, true, true⟩] = 2 := by
    rw [ring_max_y]
    simp only [List.foldl_cons, List.foldl_nil]
    rw [max_eq_right hfm.2]
    norm_num
  have heq : clamp_polygons [⟨⟨[⟨0, 0, true, true⟩, ⟨2, 0, true, true⟩, ⟨0, 2, true, true⟩,
        ⟨2, 2, true, true⟩, ⟨0, 0, true, true⟩], []⟩,
      [⟨[⟨3, -1, true, true⟩], []⟩]⟩] =
      [⟨⟨[⟨0, 0, true, true⟩, ⟨2, 0, true, true⟩, ⟨0, 2, true, true⟩,
        ⟨2, 2, true, true⟩, ⟨0, 0, true, true⟩], []⟩,
      [⟨[⟨2, 0, true, true⟩], []⟩]⟩] := by
    rw [clamp_polygons]
    simp only [List.map_cons, List.map_nil, clamp_polygon]
    rw [hminx, hmaxx, hminy, hmaxy]
    simp only [clamp_val]
    rw [min_eq_right (show (2 : ℝ) ≤ 3 by norm_num),
        max_eq_right (show (0 : ℝ) ≤ 2 by norm_num),
        min_eq_left (show (-1 : ℝ) ≤ 2 by norm_num),
        max_eq_left (show (-1 : ℝ) ≤ 0 by norm_num)]
  have hmem : (⟨⟨[⟨0, 0, true, true⟩, ⟨2, 0, true, true⟩, ⟨0, 2, true, true⟩,
        ⟨2, 2, true, true⟩, ⟨0, 0, true, true⟩], []⟩,
      [⟨[⟨2, 0, true, true⟩], []⟩]⟩ : Tile) ∈
      clamp_polygons [⟨⟨[⟨0, 0, true, true⟩, ⟨2, 0, true, true⟩, ⟨0, 2, true, true⟩,
        ⟨2, 2, true, true⟩, ⟨0, 0, true, true⟩], []⟩,
      [⟨[⟨3, -1, true, true⟩], []⟩]⟩] := by
    rw [heq]
    exact List.mem_singleton.mpr rfl
  have h := clamp_polygons_spec _ _ hmem (by simp)
      ⟨[⟨2, 0, true, true⟩], []⟩ (List.mem_singleton.mpr rfl)
      ⟨2, 0, true, true⟩ (List.mem_singleton.mpr rfl)
  exact ⟨heq, h.1, h.2.1, h.2.2.1, h.2.2.2⟩

/-! ## Claim C10: clip validation precedes mutation -/

/-- **C10.** If `clip_polygon_to_tiles` returns an error, the tile grid is
unchanged: both validation checks run before any fragment list is touched,
so no fragment is appended on any error path. -/
theorem clip_polygon_to_tiles_error_preserves_grid
    (intersect : Polygon → Polygon → List Polygon) (grid : List Tile)
    (polygon : Polygon) (e : GeoTilerError)
    (h : (clip_polygon_to_tiles intersect grid polygon).1 = .error e) :
    (clip_polygon_to_tiles intersect grid polygon).2 = grid := by
  by_cases h1 : polygon.exterior.length < 4
  · simp [clip_polygon_to_tiles, if_pos h1]
  · by_cases h2 : polygon.exterior.any (fun c => !c.xFinite || !c.yFinite)
    · simp [clip_polygon_to_tiles, if_neg h1, h2]
    · exfalso
      simp [clip_polygon_to_tiles, if_neg h1, h2] at h

/-! ## Claim C4: clipping and densification -/

/-- Distance only depends on the `x`/`y` components of its right
argument. -/
theorem distance_between_congr_right {a b b' : Coord} (h : coordEq b b') :
    distance_between a b = distance_between a b' := by
  rw [distance_between, distance_between, h.1, h.2]

/-- Chain property for a run `f 0, f 1, …, f (m+1)` listed as head,
mapped interior range, and final point. -/
theorem chain_cons_map_append (P : Coord → Coord → Prop) :
    ∀ (m : ℕ) (f : ℕ → Coord), (∀ j, j ≤ m → P (f j) (f (j + 1))) →
      List.Chain' P (f 0 :: ((List.range m).map (fun j => f (j + 1)) ++ [f (m + 1)]))
  | 0, f, hf => by
    simpa using List.chain'_pair.mpr (hf 0 (le_refl 0))
  | m + 1, f, hf => by
    have hrw : (List.range (m + 1)).map (fun j => f (j + 1)) =
        f 1 :: (List.range m).map (fun j => f (j + 2)) := by
      rw [List.range_succ_eq_map]
      simp [Function.comp]
    rw [hrw]
    have ih := chain_cons_map_append P m (fun j => f (j + 1))
      (fun j hj => hf (j + 1) (by omega))
    exact List.chain'_cons.mpr ⟨hf 0 (by omega), by simpa using ih⟩

/-- The per-edge chain: the source vertex, the inserted subdivision
points, and the target vertex form a chain of segments no longer than
`maxd`. -/
theorem chain_subdiv (maxd : ℝ) (hm : 0 < maxd) (c1 c2 : Coord) :
    List.Chain' (fun a b => distance_between a b ≤ maxd)
      (c1 :: (subdiv_points maxd c1 c2 ++ [c2])) := by
  by_cases hd : distance_between c1 c2 > maxd
  case neg =>
    rw [subdiv_points, if_neg hd]
    push_neg at hd
    simpa using List.chain'_pair.mpr hd
  case pos =>
    rw [subdiv_points, if_pos hd]
    set d := distance_between c1 c2 with hdd
    set ns : ℕ := (⌈d / maxd⌉).toNat with hns
    have hd1 : 1 < d / maxd := (one_lt_div hm).mpr hd
    have hceil2 : (2 : ℤ) ≤ ⌈d / maxd⌉ := by
      have := Int.lt_ceil.mpr (show ((1 : ℤ) : ℝ) < d / maxd by exact_mod_cast hd1)
      omega
    have hns2 : 2 ≤ ns := by
      rw [hns]
      omega
    have hns0 : (ns : ℝ) ≠ 0 := by
      have : 0 < ns := by omega
      positivity
    have hnsR : d / maxd ≤ (ns : ℝ) := by
      have h1 := Int.le_ceil (d / maxd)
      have h0 : ((ns : ℕ) : ℤ) = ⌈d / maxd⌉ := by
        rw [hns]
        exact Int.toNat_of_nonneg (by omega)
      have h2 : ((⌈d / maxd⌉ : ℤ) : ℝ) = ((ns : ℕ) : ℝ) := by
        exact_mod_cast h0.symm
      rw [h2] at h1
      exact h1
    have hdns : d / (ns : ℝ) ≤ maxd := by
      have hnspos : (0 : ℝ) < (ns : ℝ) := by
        have : 0 < ns := by omega
        exact_mod_cast this
      rw [div_le_iff hnspos]
      have := (div_le_iff hm).mp hnsR
      linarith
    set f : ℕ → Coord := fun j =>
      if j = 0 then c1 else if j = ns then c2
      else interpolate_point c1 c2 ((j : ℝ) / (ns : ℝ)) with hf
    have hcoord : ∀ j, j ≤ ns →
        (f j).x = c1.x + ((j : ℝ) / (ns : ℝ)) * (c2.x - c1.x) ∧
        (f j).y = c1.y + ((j : ℝ) / (ns : ℝ)) * (c2.y - c1.y) := by
      intro j hj
      by_cases hj0 : j = 0
      · subst hj0
        rw [hf]
        simp
      · by_cases hjn : j = ns
        · subst hjn
          simp only [hf, if_neg hj0, if_true]
          rw [div_self hns0]
          constructor <;> ring
        · simp only [hf]
          rw [if_neg hj0, if_neg hjn]
          exact ⟨rfl, rfl⟩
    have hstep : ∀ j, j ≤ ns - 1 →
        distance_between (f j) (f (j + 1)) ≤ maxd := by
      intro j hj
      have h1 := hcoord j (by omega)
      have h2 := hcoord (j + 1) (by omega)
      have hAx : (f (j + 1)).x - (f j).x = (c2.x - c1.x) / (ns : ℝ) := by
        rw [h2.1, h1.1]
        push_cast
        field_simp
        ring
      have hAy : (f (j + 1)).y - (f j).y = (c2.y - c1.y) / (ns : ℝ) := by
        rw [h2.2, h1.2]
        push_cast
        field_simp
        ring
      have hdist : distance_between (f j) (f (j + 1)) = d / (ns : ℝ) := by
        rw [distance_between, hAx, hAy]
        have harg : (c2.x - c1.x) / (ns : ℝ) * ((c2.x - c1.x) / (ns : ℝ)) +
            (c2.y - c1.y) / (ns : ℝ) * ((c2.y - c1.y) / (ns : ℝ)) =
            ((c2.x - c1.x) * (c2.x - c1.x) + (c2.y - c1.y) * (c2.y - c1.y)) /
              ((ns : ℝ) * (ns : ℝ)) := by
          field_simp
        rw [harg,
          Real.sqrt_div (add_nonneg (mul_self_nonneg _) (mul_self_nonneg _)),
          Real.sqrt_mul_self (by positivity)]
        rw [hdd, distance_between]
      rw [hdist]
      exact hdns
    have hchain := chain_cons_map_append (fun a b => distance_between a b ≤ maxd)
      (ns - 1) f hstep
    have hf0 : f 0 = c1 := by
      simp only [hf, if_true]
    have hfns : f (ns - 1 + 1) = c2 := by
      have hix : ns - 1 + 1 = ns := by omega
      rw [hix]
      simp only [hf, if_neg (show ¬ ns = 0 by omega), if_true]
    have hmap : (List.range (ns - 1)).map
        (fun (j : ℕ) => interpolate_point c1 c2 (((j : ℝ) + 1) / (ns : ℝ))) =
        (List.range (ns - 1)).map (fun j => f (j + 1)) := by
      apply List.map_congr_left
      intro j hj
      rw [List.mem_range] at hj
      simp only [hf]
      rw [if_neg (show ¬ j + 1 = 0 by omega), if_neg (show ¬ j + 1 = ns by omega)]
      congr 1
      push_cast
      ring
    rw [hmap, ← hf0, ← hfns]
    exact hchain

/-- The edge loop of `densify_edges` produces a chain of short segments
from the first vertex through all inserted points up to (a copy of) the
ring's final coordinate. -/
theorem chain_densify_aux (maxd : ℝ) (hm : 0 < maxd) :
    ∀ (rest : List Coord) (c1 c2 : Coord),
      List.Chain' (fun a b => distance_between a b ≤ maxd)
        ((c1 :: densify_aux maxd c1 c2 rest) ++
          [(c2 :: rest).getLast (List.cons_ne_nil c2 rest)])
  | [], c1, c2 => by
    rw [densify_aux]
    simpa using chain_subdiv maxd hm c1 c2
  | c3 :: rest', c1, c2 => by
    rw [densify_aux]
    have hsub' : List.Chain' (fun a b => distance_between a b ≤ maxd)
        ((c1 :: subdiv_points maxd c1 c2) ++ [c2]) := by
      simpa using chain_subdiv maxd hm c1 c2
    have hdec := List.chain'_append.mp hsub'
    have ih := chain_densify_aux maxd hm rest' c2 c3
    have hlast : (c2 :: c3 :: rest').getLast (List.cons_ne_nil _ _) =
        (c3 :: rest').getLast (List.cons_ne_nil _ _) :=
      List.getLast_cons (List.cons_ne_nil c3 rest')
    rw [hlast]
    have hgoal : (c1 :: (subdiv_points maxd c1 c2 ++ c2 :: densify_aux maxd c2 c3 rest')) ++
        [(c3 :: rest').getLast (List.cons_ne_nil c3 rest')] =
        (c1 :: subdiv_points maxd c1 c2) ++
          ((c2 :: densify_aux maxd c2 c3 rest') ++
            [(c3 :: rest').getLast (List.cons_ne_nil c3 rest')]) := by
      simp
    rw [hgoal]
    apply List.chain'_append.mpr
    refine ⟨hdec.1, by simpa using ih, ?_⟩
    intro x hx y hy
    have hy' : c2 = y := by simpa using hy
    rw [← hy']
    exact hdec.2.2 x hx c2 (by simp)

/-- `geo`'s re-closing always yields a closed ring. -/
theorem close_ring_closed (l : List Coord) : ring_closed (close_ring l) := by
  rcases l with _ | ⟨a, rest⟩
  · rw [close_ring]
    intro h
    exact absurd rfl h
  · rw [close_ring]
    by_cases hc : coordEq ((a :: rest).getLast (List.cons_ne_nil a rest)) a
    · rw [if_pos hc]
      intro h
      exact ⟨hc.1.symm, hc.2.symm⟩
    · rw [if_neg hc]
      intro h
      have h2 : ((a :: rest) ++ [a]).getLast h = a := List.getLast_concat _
      have h1 : ((a :: rest) ++ [a]).head h = a := rfl
      rw [h1, h2]
      exact ⟨rfl, rfl⟩

/-- Re-closing preserves the short-segment chain, provided the trailing
point `z` being replaced by the head has the same coordinates as the
head. -/
theorem chain_close_ring {maxd : ℝ} {l : List Coord} {z : Coord}
    (hne : l ≠ []) (hz : coordEq z (l.head hne))
    (hl : List.Chain' (fun a b => distance_between a b ≤ maxd) (l ++ [z])) :
    List.Chain' (fun a b => distance_between a b ≤ maxd) (close_ring l) := by
  rcases l with _ | ⟨a, rest⟩
  · exact absurd rfl hne
  · rw [close_ring]
    have hdec := List.chain'_append.mp hl
    by_cases hc : coordEq ((a :: rest).getLast (List.cons_ne_nil a rest)) a
    · rw [if_pos hc]
      exact hdec.1
    · rw [if_neg hc]
      apply List.chain'_append.mpr
      refine ⟨hdec.1, List.chain'_singleton a, ?_⟩
      intro x hx y hy
      have hy' : a = y := by simpa using hy
      rw [← hy']
      have hxz := hdec.2.2 x hx z (by simp)
      have hza : coordEq z a := hz
      rw [distance_between_congr_right (⟨hza.1.symm, hza.2.symm⟩ : coordEq a z)]
      exact hxz

/-- `densify_edges`' ring transformation on a closed ring yields a ring
whose consecutive points are at most `maxd` apart. -/
theorem densify_ring_chain (maxd : ℝ) (hm : 0 < maxd) (L : List Coord)
    (hclosed : ring_closed L) :
    List.Chain' (fun a b => distance_between a b ≤ maxd)
      (close_ring (densify_ring_core L maxd)) := by
  rcases L with _ | ⟨c0, rest0⟩
  · rw [densify_ring_core, close_ring]
    exact List.chain'_nil
  rcases rest0 with _ | ⟨c1, rest⟩
  · rw [densify_ring_core, close_ring,
      if_pos (show coordEq ([c0].getLast (List.cons_ne_nil c0 [])) c0 from ⟨rfl, rfl⟩)]
    exact List.chain'_singleton _
  · rw [densify_ring_core]
    have hcl : coordEq ((c1 :: rest).getLast (List.cons_ne_nil c1 rest)) c0 := by
      have h := hclosed (List.cons_ne_nil _ _)
      have h2 : (c0 :: c1 :: rest).getLast (List.cons_ne_nil _ _) =
          (c1 :: rest).getLast (List.cons_ne_nil _ _) :=
        List.getLast_cons (List.cons_ne_nil c1 rest)
      rw [h2] at h
      exact ⟨h.1.symm, h.2.symm⟩
    rw [if_neg (fun hcon => hcon.2 hcl)]
    simp only [List.append_nil]
    exact chain_close_ring (List.cons_ne_nil _ _) hcl
      (chain_densify_aux maxd hm rest c0 c1)

/-- Densification of a closed fragment ring: the result is closed and all
consecutive segments are at most `maxd` long. -/
theorem densify_edges_spec (rp : Polygon) (maxd : ℝ) (hm : 0 < maxd)
    (hclosed : ring_closed rp.exterior) :
    ring_closed ((densify_edges rp maxd).exterior) ∧
    segments_within maxd ((densify_edges rp maxd).exterior) := by
  rw [densify_edges]
  exact ⟨close_ring_closed _, densify_ring_chain maxd hm rp.exterior hclosed⟩

/-- **C4.** `clip_polygon_to_tiles` fails with an invalid-polygon error
exactly when the polygon's boundary ring has fewer than 4 coordinates or
contains a non-finite coordinate; otherwise it succeeds and appends to
each tile the densified intersection fragments, and densification
guarantees (for the closed rings geo's boolean intersection produces)
that no segment between consecutive ring coordinates exceeds the default
maximum of 0.5°, with the densified ring still closed. -/
theorem clip_polygon_to_tiles_spec
    (intersect : Polygon → Polygon → List Polygon)
    (grid : List Tile) (polygon : Polygon) :
    ((∃ m, (clip_polygon_to_tiles intersect grid polygon).1 =
        .error (.InvalidPolygonError m)) ↔
      (polygon.exterior.length < 4 ∨
        polygon.exterior.any (fun c => !c.xFinite || !c.yFinite) = true)) ∧
    (¬ (polygon.exterior.length < 4 ∨
        polygon.exterior.any (fun c => !c.xFinite || !c.yFinite) = true) →
      (clip_polygon_to_tiles intersect grid polygon).1 = .ok () ∧
      (clip_polygon_to_tiles intersect grid polygon).2 =
        grid.map (fun tile =>
          { tile with polygons := tile.polygons ++
              ((intersect tile.vertices polygon).map
                (fun rp => densify_edges rp DEFAULT_MAX_DISTANCE_BETWEEN_POINTS)) })) ∧
    (∀ rp : Polygon, ring_closed rp.exterior →
      ring_closed ((densify_edges rp DEFAULT_MAX_DISTANCE_BETWEEN_POINTS).exterior) ∧
      segments_within DEFAULT_MAX_DISTANCE_BETWEEN_POINTS
        ((densify_edges rp DEFAULT_MAX_DISTANCE_BETWEEN_POINTS).exterior)) := by
  have hm : (0 : ℝ) < DEFAULT_MAX_DISTANCE_BETWEEN_POINTS := by
    rw [DEFAULT_MAX_DISTANCE_BETWEEN_POINTS]
    norm_num
  have hokpair : ∀ (hc : ¬ (polygon.exterior.length < 4 ∨
      polygon.exterior.any (fun c => !c.xFinite || !c.yFinite) = true)),
      clip_polygon_to_tiles intersect grid polygon =
        (.ok (), grid.map (fun tile =>
          { tile with polygons := tile.polygons ++
              ((intersect tile.vertices polygon).map
                (fun rp => densify_edges rp DEFAULT_MAX_DISTANCE_BETWEEN_POINTS)) })) := by
    intro hc
    rw [not_or] at hc
    simp only [clip_polygon_to_tiles, if_neg hc.1, if_neg hc.2]
  refine ⟨⟨?_, ?_⟩, ?_, fun rp hrp => densify_edges_spec rp _ hm hrp⟩
  · rintro ⟨m, hmsg⟩
    by_contra hc
    rw [hokpair hc] at hmsg
    exact Except.noConfusion hmsg
  · intro h
    by_cases h4 : polygon.exterior.length < 4
    · refine ⟨"Polygon must have at least 3 vertices", ?_⟩
      have hpair : clip_polygon_to_tiles intersect grid polygon =
          (.error (.InvalidPolygonError "Polygon must have at least 3 vertices"), grid) := by
        simp only [clip_polygon_to_tiles, if_pos h4]
      rw [hpair]
    · rcases h with h | h
      · exact absurd h h4
      · refine ⟨"Polygon contains NaN or infinite coordinates", ?_⟩
        have hpair : clip_polygon_to_tiles intersect grid polygon =
            (.error (.InvalidPolygonError "Polygon contains NaN or infinite coordinates"), grid) := by
          simp only [clip_polygon_to_tiles, if_neg h4, if_pos h]
        rw [hpair]
  · intro hc
    rw [hokpair hc]
    exact ⟨rfl, rfl⟩

/-- Witness for C4: a closed 4-coordinate triangle ring on an empty grid
is accepted; its own ring is closed and its densification is closed with
all segments within the maximum. -/
theorem clip_polygon_to_tiles_spec_witness :
    ¬ ((Polygon.mk [⟨0, 0, true, true⟩, ⟨1, 0, true, true⟩,
          ⟨0, 1, true, true⟩, ⟨0, 0, true, true⟩] []).exterior.length < 4 ∨
        (Polygon.mk [⟨0, 0, true, true⟩, ⟨1, 0, true, true⟩,
          ⟨0, 1, true, true⟩, ⟨0, 0, true, true⟩] []).exterior.any
          (fun c => !c.xFinite || !c.yFinite) = true) ∧
    (clip_polygon_to_tiles (fun _ _ => []) []
      (Polygon.mk [⟨0, 0, true, true⟩, ⟨1, 0, true, true⟩,
        ⟨0, 1, true, true⟩, ⟨0, 0, true, true⟩] [])).1 = .ok () ∧
    (clip_polygon_to_tiles (fun _ _ => []) []
      (Polygon.mk [⟨0, 0, true, true⟩, ⟨1, 0, true, true⟩,
        ⟨0, 1, true, true⟩, ⟨0, 0, true, true⟩] [])).2 = [] ∧
    ring_closed ((densify_edges
      (Polygon.mk [⟨0, 0, true, true⟩, ⟨1, 0, true, true⟩,
        ⟨0, 1, true, true⟩, ⟨0, 0, true, true⟩] [])
      DEFAULT_MAX_DISTANCE_BETWEEN_POINTS).exterior) ∧
    segments_within DEFAULT_MAX_DISTANCE_BETWEEN_POINTS ((densify_edges
      (Polygon.mk [⟨0, 0, true, true⟩, ⟨1, 0, true, true⟩,
        ⟨0, 1, true, true⟩, ⟨0, 0, true, true⟩] [])
      DEFAULT_MAX_DISTANCE_BETWEEN_POINTS).exterior) := by
  have hval : ¬ ((Polygon.mk [⟨0, 0, true, true⟩, ⟨1, 0, true, true⟩,
      ⟨0, 1, true, true⟩, ⟨0, 0, true, true⟩] []).exterior.length < 4 ∨
      (Polygon.mk [⟨0, 0, true, true⟩, ⟨1, 0, true, true⟩,
        ⟨0, 1, true, true⟩, ⟨0, 0, true, true⟩] []).exterior.any
        (fun c => !c.xFinite || !c.yFinite) = true) := by
    simp
  have hcl : ring_closed (Polygon.mk [(⟨0, 0, true, true⟩ : Coord), ⟨1, 0, true, true⟩,
      ⟨0, 1, true, true⟩, ⟨0, 0, true, true⟩] []).exterior := by
    intro h
    exact ⟨rfl, rfl⟩
  have hmain := clip_polygon_to_tiles_spec (fun _ _ => []) []
    (Polygon.mk [⟨0, 0, true, true⟩, ⟨1, 0, true, true⟩,
      ⟨0, 1, true, true⟩, ⟨0, 0, true, true⟩] [])
  have hok := hmain.2.1 hval
  have hden := hmain.2.2 _ hcl
  exact ⟨hval, hok.1, by rw [hok.2]; rfl, hden.1, hden.2⟩

/-- Witness for C10: a 3-coordinate ring is rejected and a one-tile grid
comes back untouched. -/
theorem clip_polygon_to_tiles_error_preserves_grid_witness :
    (clip_polygon_to_tiles (fun _ _ => []) [make_tile 0 0 90]
      ⟨[⟨0, 0, true, true⟩, ⟨1, 0, true, true⟩, ⟨0, 1, true, true⟩], []⟩).1 =
      .error (.InvalidPolygonError "Polygon must have at least 3 vertices") ∧
    (clip_polygon_to_tiles (fun _ _ => []) [make_tile 0 0 90]
      ⟨[⟨0, 0, true, true⟩, ⟨1, 0, true, true⟩, ⟨0, 1, true, true⟩], []⟩).2 =
      [make_tile 0 0 90] := by
  have h1 : (clip_polygon_to_tiles (fun _ _ => []) [make_tile 0 0 90]
      ⟨[⟨0, 0, true, true⟩, ⟨1, 0, true, true⟩, ⟨0, 1, true, true⟩], []⟩).1 =
      .error (.InvalidPolygonError "Polygon must have at least 3 vertices") := by
    simp [clip_polygon_to_tiles]
  exact ⟨h1, clip_polygon_to_tiles_error_preserves_grid _ _ _ _ h1⟩

/-! ## Claim C2: mesh vertices and triangle indices -/

/-- A successful coordinate conversion converts every input pointwise and
preserves the length. -/
theorem to_cartesian_list_ok :
    ∀ (L : List Coord) (vs : List Vec3), to_cartesian_list L = .ok vs →
      vs.length = L.length ∧
      ∀ (i : ℕ) (c : Coord) (v : Vec3), L[i]? = some c → vs[i]? = some v →
        ll_to_cartesian c.x c.y = .ok v
  | [], vs, h => by
    rw [to_cartesian_list] at h
    injection h with h
    subst h
    exact ⟨rfl, fun i c v hc _ => by simp at hc⟩
  | c :: rest, vs, h => by
    rw [to_cartesian_list] at h
    cases hll : ll_to_cartesian c.x c.y with
    | error e =>
      rw [hll] at h
      exact Except.noConfusion h
    | ok v =>
      rw [hll] at h
      cases hrec : to_cartesian_list rest with
      | error e =>
        rw [hrec] at h
        exact Except.noConfusion h
      | ok vs' =>
        rw [hrec] at h
        injection h with h
        subst h
        have ih := to_cartesian_list_ok rest vs' hrec
        refine ⟨by simp [ih.1], fun i c' v' hc' hv' => ?_⟩
        cases i with
        | zero =>
          simp only [List.getElem?_cons_zero] at hc' hv'
          injection hc' with hc'
          injection hv' with hv'
          subst hc'
          subst hv'
          exact hll
        | succ i =>
          simp only [List.getElem?_cons_succ] at hc' hv'
          exact ih.2 i c' v' hc' hv'

/-- A successful projection run preserves the length of the point list. -/
theorem project_list_ok_length :
    ∀ (l : List Vec3) (cs : List Coord), project_list l = .ok cs →
      cs.length = l.length
  | [], cs, h => by
    rw [project_list] at h
    injection h with h
    subst h
    rfl
  | p :: rest, cs, h => by
    rw [project_list] at h
    cases hp : stereographic_projection p with
    | error e =>
      rw [hp] at h
      exact Except.noConfusion h
    | ok c =>
      rw [hp] at h
      cases hrec : project_list rest with
      | error e =>
        rw [hrec] at h
        exact Except.noConfusion h
      | ok cs' =>
        rw [hrec] at h
        injection h with h
        subst h
        simp [project_list_ok_length rest cs' hrec]

/-- A successful rotation returns one point per input point. -/
theorem rotate_ok_length (rotBetween : Vec3 → Vec3 → Option (Vec3 → Vec3))
    (points out : List Vec3)
    (h : rotate_points_to_south_pole rotBetween points = .ok out) :
    out.length = points.length := by
  rw [rotate_points_to_south_pole] at h
  by_cases hemp : points = []
  · rw [if_pos hemp] at h
    exact Except.noConfusion h
  · rw [if_neg hemp] at h
    by_cases hmag : norm3 (centroid3 points) < f64_EPSILON
    · simp only [if_pos hmag] at h
      exact Except.noConfusion h
    · simp only [if_neg hmag] at h
      cases hrot : rotBetween (normalize3 (centroid3 points)) southPole with
      | none =>
        rw [hrot] at h
        exact Except.noConfusion h
      | some R =>
        rw [hrot] at h
        injection h with h
        subst h
        exact List.length_map _ _

/-- Flattening triangle triples produces a list of length `3·n`. -/
theorem length_flatMap_triple (l : List (ℕ × ℕ × ℕ)) :
    (l.flatMap (fun t => [t.1, t.2.1, t.2.2])).length = 3 * l.length := by
  induction l with
  | nil => rfl
  | cons t l ih =>
    simp only [List.flatMap_cons, List.length_append, ih, List.length_cons]
    simp
    ring

/-- **C2.** For every polygon accepted by `generate_polygon_feature_mesh`
(with the external triangulator satisfying its index contract), the
returned mesh's vertices are exactly the original, unrotated Cartesian
points produced by `get_mesh_points` — the boundary ring's coordinates
converted first, in original order, followed by the retained Fibonacci
samples — the flattened triangles list has length divisible by 3, and
every triangle index is less than the vertices length. -/
theorem generate_polygon_feature_mesh_spec
    (contains : List Coord → Coord → Bool)
    (rotBetween : Vec3 → Vec3 → Option (Vec3 → Vec3))
    (triangulate : List Coord → List (ℕ × ℕ) → Except String (List (ℕ × ℕ × ℕ)))
    (polygon : Polygon) (md : PolygonMeshData) (gm : List Vec3)
    (htri : ∀ (pts : List Coord) (edges : List (ℕ × ℕ)) (tris : List (ℕ × ℕ × ℕ)),
      triangulate pts edges = .ok tris →
      ∀ t ∈ tris, t.1 < pts.length ∧ t.2.1 < pts.length ∧ t.2.2 < pts.length)
    (hok : generate_polygon_feature_mesh contains rotBetween triangulate polygon = .ok md)
    (hgm : get_mesh_points contains polygon = .ok gm) :
    md.vertices = gm ∧
    md.triangles.length % 3 = 0 ∧
    (∀ idx ∈ md.triangles, idx < md.vertices.length) ∧
    (∀ fibs : List Coord, fibonacci_sphere DEFAULT_FIBONACCI_POINT_COUNT = .ok fibs →
      gm.length = polygon.exterior.length +
        ((fibs.filter (fun p => contains polygon.exterior p)).map
          (fun p => (⟨to_degrees p.x, to_degrees p.y, true, true⟩ : Coord))).length ∧
      (∀ (i : ℕ) (c : Coord), polygon.exterior[i]? = some c →
        ∃ v : Vec3, gm[i]? = some v ∧ ll_to_cartesian c.x c.y = .ok v) ∧
      (∀ (j : ℕ) (p : Coord),
        ((fibs.filter (fun p => contains polygon.exterior p)).map
          (fun p => (⟨to_degrees p.x, to_degrees p.y, true, true⟩ : Coord)))[j]? = some p →
        ∃ v : Vec3, gm[polygon.exterior.length + j]? = some v ∧
          ll_to_cartesian p.x p.y = .ok v)) := by
  -- dissect the pipeline of generate_polygon_feature_mesh
  rw [generate_polygon_feature_mesh] at hok
  split at hok
  case h_1 e heq =>
    rw [hgm] at heq
    exact Except.noConfusion heq
  case h_2 mesh_points heq =>
  rw [hgm] at heq
  injection heq with heq
  subst heq
  split at hok
  case h_1 e heq2 => exact Except.noConfusion hok
  case h_2 rot heq2 =>
  split at hok
  case h_1 e heq3 => exact Except.noConfusion hok
  case h_2 proj heq3 =>
  simp only [] at hok
  split at hok
  case h_1 err heq4 => exact Except.noConfusion hok
  case h_2 tris heq4 =>
  injection hok with hok
  subst hok
  -- dissect get_mesh_points
  rw [get_mesh_points] at hgm
  split at hgm
  case isTrue h1 => exact Except.noConfusion hgm
  case isFalse h1 =>
  split at hgm
  case isTrue h2 => exact Except.noConfusion hgm
  case isFalse h2 =>
  split at hgm
  case h_1 e heqf => exact Except.noConfusion hgm
  case h_2 fibs0 heqf =>
  have tc := to_cartesian_list_ok _ _ hgm
  have hlenproj : proj.length = gm.length := by
    rw [project_list_ok_length _ _ heq3, rotate_ok_length _ _ _ heq2]
  have hlentc := tc.1
  rw [List.length_append] at hlentc
  refine ⟨rfl, ?_, ?_, ?_⟩
  · show (tris.flatMap (fun t => [t.1, t.2.1, t.2.2])).length % 3 = 0
    rw [length_flatMap_triple]
    simp [Nat.mul_mod_right]
  · intro idx hidx
    have hidx' : idx ∈ tris.flatMap (fun t => [t.1, t.2.1, t.2.2]) := hidx
    rcases List.mem_flatMap.mp hidx' with ⟨t, ht, hmem⟩
    have hb := htri proj (boundary_edges polygon.exterior.length) tris heq4 t ht
    simp only [List.mem_cons, List.not_mem_nil, or_false] at hmem
    rcases hmem with rfl | rfl | rfl
    · exact hlenproj ▸ hb.1
    · exact hlenproj ▸ hb.2.1
    · exact hlenproj ▸ hb.2.2
  · intro fibs hfibs
    rw [heqf] at hfibs
    injection hfibs with hfibs
    subst hfibs
    refine ⟨by rw [tc.1, List.length_append], ?_, ?_⟩
    · intro i c hc
      have hi : i < polygon.exterior.length := by
        rcases List.getElem?_eq_some_iff.mp hc with ⟨h, _⟩
        exact h
      have higm : i < gm.length := by omega
      refine ⟨gm[i], List.getElem?_eq_getElem higm, ?_⟩
      apply tc.2 i c gm[i]
      · rw [List.getElem?_append_left hi]
        exact hc
      · exact List.getElem?_eq_getElem higm
    · intro j p hp
      obtain ⟨hj, -⟩ := List.getElem?_eq_some_iff.mp hp
      have higm : polygon.exterior.length + j < gm.length := by omega
      refine ⟨gm[polygon.exterior.length + j], List.getElem?_eq_getElem higm, ?_⟩
      apply tc.2 (polygon.exterior.length + j) p gm[polygon.exterior.length + j]
      · rw [List.getElem?_append_right (by omega)]
        simpa using hp
      · exact List.getElem?_eq_getElem higm

/-- Witness for C2: an equatorial triangle ring with a contains test that
retains no samples, the identity as the derived rotation and a
triangulator returning no triangles.  The mesh vertices are exactly the
four converted boundary coordinates in order, and the (empty) triangle
list trivially satisfies the length and index bounds. -/
theorem generate_polygon_feature_mesh_spec_witness :
    generate_polygon_feature_mesh (fun _ _ => false) (fun _ _ => some (fun v => v))
      (fun _ _ => .ok []) (Polygon.mk [⟨0, 0, true, true⟩, ⟨90, 0, true, true⟩,
        ⟨180, 0, true, true⟩, ⟨0, 0, true, true⟩] []) =
      .ok ⟨[((1 : ℝ), (0 : ℝ), (0 : ℝ)), ((0 : ℝ), (1 : ℝ), (0 : ℝ)),
        ((-1 : ℝ), (0 : ℝ), (0 : ℝ)), ((1 : ℝ), (0 : ℝ), (0 : ℝ))], []⟩ ∧
    get_mesh_points (fun _ _ => false) (Polygon.mk [⟨0, 0, true, true⟩,
        ⟨90, 0, true, true⟩, ⟨180, 0, true, true⟩, ⟨0, 0, true, true⟩] []) =
      .ok [((1 : ℝ), (0 : ℝ), (0 : ℝ)), ((0 : ℝ), (1 : ℝ), (0 : ℝ)),
        ((-1 : ℝ), (0 : ℝ), (0 : ℝ)), ((1 : ℝ), (0 : ℝ), (0 : ℝ))] ∧
    (PolygonMeshData.mk [((1 : ℝ), (0 : ℝ), (0 : ℝ)), ((0 : ℝ), (1 : ℝ), (0 : ℝ)),
        ((-1 : ℝ), (0 : ℝ), (0 : ℝ)), ((1 : ℝ), (0 : ℝ), (0 : ℝ))] []).vertices =
      [((1 : ℝ), (0 : ℝ), (0 : ℝ)), ((0 : ℝ), (1 : ℝ), (0 : ℝ)),
        ((-1 : ℝ), (0 : ℝ), (0 : ℝ)), ((1 : ℝ), (0 : ℝ), (0 : ℝ))] ∧
    (PolygonMeshData.mk [((1 : ℝ), (0 : ℝ), (0 : ℝ)), ((0 : ℝ), (1 : ℝ), (0 : ℝ)),
        ((-1 : ℝ), (0 : ℝ), (0 : ℝ)), ((1 : ℝ), (0 : ℝ), (0 : ℝ))]
        []).triangles.length % 3 = 0 ∧
    ∀ idx ∈ (PolygonMeshData.mk [((1 : ℝ), (0 : ℝ), (0 : ℝ)),
        ((0 : ℝ), (1 : ℝ), (0 : ℝ)), ((-1 : ℝ), (0 : ℝ), (0 : ℝ)),
        ((1 : ℝ), (0 : ℝ), (0 : ℝ))] []).triangles,
      idx < (PolygonMeshData.mk [((1 : ℝ), (0 : ℝ), (0 : ℝ)),
        ((0 : ℝ), (1 : ℝ), (0 : ℝ)), ((-1 : ℝ), (0 : ℝ), (0 : ℝ)),
        ((1 : ℝ), (0 : ℝ), (0 : ℝ))] []).vertices.length := by
  have h00 : ll_to_cartesian 0 0 = .ok (1, 0, 0) := by
    rw [ll_to_cartesian, if_neg (by norm_num)]
    norm_num [sanitize_coordinates]
  have h90 : ll_to_cartesian 90 0 = .ok (0, 1, 0) := by
    have hs : sanitize_coordinates 90 0 1e-10 = (90, 0) := by
      rw [sanitize_coordinates]
      norm_num
    rw [ll_to_cartesian, if_neg (by norm_num)]
    simp only [hs]
    have h1 : (90 : ℝ) * π / 180 = π / 2 := by ring
    have h2 : (0 : ℝ) * π / 180 = 0 := by ring
    rw [h1, h2, Real.cos_pi_div_two, Real.sin_pi_div_two, Real.cos_zero, Real.sin_zero]
    norm_num
  have h180 : ll_to_cartesian 180 0 = .ok (-1, 0, 0) := by
    have hs : sanitize_coordinates 180 0 1e-10 = (180, 0) := by
      rw [sanitize_coordinates]
      norm_num
    rw [ll_to_cartesian, if_neg (by norm_num)]
    simp only [hs]
    have h1 : (180 : ℝ) * π / 180 = π := by ring
    have h2 : (0 : ℝ) * π / 180 = 0 := by ring
    rw [h1, h2, Real.cos_pi, Real.sin_pi, Real.cos_zero, Real.sin_zero]
    norm_num
  obtain ⟨fibs, hfibs⟩ : ∃ fibs,
      fibonacci_sphere DEFAULT_FIBONACCI_POINT_COUNT = .ok fibs := by
    rw [fibonacci_sphere]
    rw [if_neg (by rw [DEFAULT_FIBONACCI_POINT_COUNT]; norm_num),
      if_neg (by rw [DEFAULT_FIBONACCI_POINT_COUNT, f64_EPSILON]; norm_num)]
    exact ⟨_, rfl⟩
  have hgmW : get_mesh_points (fun _ _ => false) (Polygon.mk [⟨0, 0, true, true⟩,
      ⟨90, 0, true, true⟩, ⟨180, 0, true, true⟩, ⟨0, 0, true, true⟩] []) =
      .ok [((1 : ℝ), (0 : ℝ), (0 : ℝ)), ((0 : ℝ), (1 : ℝ), (0 : ℝ)),
        ((-1 : ℝ), (0 : ℝ), (0 : ℝ)), ((1 : ℝ), (0 : ℝ), (0 : ℝ))] := by
    rw [get_mesh_points, if_neg (by simp), if_neg (by simp), hfibs]
    show to_cartesian_list ([⟨0, 0, true, true⟩, ⟨90, 0, true, true⟩,
      ⟨180, 0, true, true⟩, ⟨0, 0, true, true⟩] ++
        (fibs.filter (fun p => false)).map
          (fun p => (⟨to_degrees p.x, to_degrees p.y, true, true⟩ : Coord))) = _
    rw [List.filter_false, List.map_nil, List.append_nil]
    simp only [to_cartesian_list, h00, h90, h180]
  have hcen : centroid3 [((1 : ℝ), (0 : ℝ), (0 : ℝ)), ((0 : ℝ), (1 : ℝ), (0 : ℝ)),
      ((-1 : ℝ), (0 : ℝ), (0 : ℝ)), ((1 : ℝ), (0 : ℝ), (0 : ℝ))] =
      ((1 / 4 : ℝ), (1 / 4 : ℝ), (0 : ℝ)) := by
    rw [centroid3, v3sum]
    simp only [List.foldl_cons, List.foldl_nil, v3add, v3smul, List.length_cons,
      List.length_nil]
    norm_num
  have hmag : ¬ (norm3 (centroid3 [((1 : ℝ), (0 : ℝ), (0 : ℝ)),
      ((0 : ℝ), (1 : ℝ), (0 : ℝ)), ((-1 : ℝ), (0 : ℝ), (0 : ℝ)),
      ((1 : ℝ), (0 : ℝ), (0 : ℝ))]) < f64_EPSILON) := by
    rw [hcen, norm3]
    push_neg
    rw [f64_EPSILON]
    have h1 : ((1 / 4 : ℝ)) ^ 2 + (1 / 4 : ℝ) ^ 2 + (0 : ℝ) ^ 2 = 1 / 8 := by norm_num
    rw [h1]
    exact Real.le_sqrt_of_sq_le (by norm_num)
  have hrot : rotate_points_to_south_pole (fun _ _ => some (fun v => v))
      [((1 : ℝ), (0 : ℝ), (0 : ℝ)), ((0 : ℝ), (1 : ℝ), (0 : ℝ)),
        ((-1 : ℝ), (0 : ℝ), (0 : ℝ)), ((1 : ℝ), (0 : ℝ), (0 : ℝ))] =
      .ok [((1 : ℝ), (0 : ℝ), (0 : ℝ)), ((0 : ℝ), (1 : ℝ), (0 : ℝ)),
        ((-1 : ℝ), (0 : ℝ), (0 : ℝ)), ((1 : ℝ), (0 : ℝ), (0 : ℝ))] := by
    rw [rotate_points_to_south_pole, if_neg (by simp)]
    simp only [if_neg hmag]
    simp
  have hst1 : stereographic_projection ((1 : ℝ), (0 : ℝ), (0 : ℝ)) =
      .ok ⟨1, 0, true, true⟩ := by
    rw [stereographic_projection]
    simp only
    rw [if_neg (by rw [f64_EPSILON]; norm_num)]
    norm_num
  have hst2 : stereographic_projection ((0 : ℝ), (1 : ℝ), (0 : ℝ)) =
      .ok ⟨0, 1, true, true⟩ := by
    rw [stereographic_projection]
    simp only
    rw [if_neg (by rw [f64_EPSILON]; norm_num)]
    norm_num
  have hst3 : stereographic_projection ((-1 : ℝ), (0 : ℝ), (0 : ℝ)) =
      .ok ⟨-1, 0, true, true⟩ := by
    rw [stereographic_projection]
    simp only
    rw [if_neg (by rw [f64_EPSILON]; norm_num)]
    norm_num
  have hproj : project_list [((1 : ℝ), (0 : ℝ), (0 : ℝ)), ((0 : ℝ), (1 : ℝ), (0 : ℝ)),
      ((-1 : ℝ), (0 : ℝ), (0 : ℝ)), ((1 : ℝ), (0 : ℝ), (0 : ℝ))] =
      .ok [⟨1, 0, true, true⟩, ⟨0, 1, true, true⟩, ⟨-1, 0, true, true⟩,
        ⟨1, 0, true, true⟩] := by
    simp only [project_list, hst1, hst2, hst3]
  have hgen : generate_polygon_feature_mesh (fun _ _ => false)
      (fun _ _ => some (fun v => v)) (fun _ _ => .ok [])
      (Polygon.mk [⟨0, 0, true, true⟩, ⟨90, 0, true, true⟩,
        ⟨180, 0, true, true⟩, ⟨0, 0, true, true⟩] []) =
      .ok ⟨[((1 : ℝ), (0 : ℝ), (0 : ℝ)), ((0 : ℝ), (1 : ℝ), (0 : ℝ)),
        ((-1 : ℝ), (0 : ℝ), (0 : ℝ)), ((1 : ℝ), (0 : ℝ), (0 : ℝ))], []⟩ := by
    simp only [generate_polygon_feature_mesh, hgmW, hrot, hproj, List.flatMap_nil]
  have htriW : ∀ (pts : List Coord) (edges : List (ℕ × ℕ)) (tris : List (ℕ × ℕ × ℕ)),
      (fun (_ : List Coord) (_ : List (ℕ × ℕ)) =>
        (.ok [] : Except String (List (ℕ × ℕ × ℕ)))) pts edges = .ok tris →
      ∀ t ∈ tris, t.1 < pts.length ∧ t.2.1 < pts.length ∧ t.2.2 < pts.length := by
    intro pts edges tris h t ht
    injection h with h
    rw [← h] at ht
    exact absurd ht (List.not_mem_nil t)
  have hmain := generate_polygon_feature_mesh_spec (fun _ _ => false)
    (fun _ _ => some (fun v => v)) (fun _ _ => .ok [])
    (Polygon.mk [⟨0, 0, true, true⟩, ⟨90, 0, true, true⟩,
      ⟨180, 0, true, true⟩, ⟨0, 0, true, true⟩] [])
    ⟨[((1 : ℝ), (0 : ℝ), (0 : ℝ)), ((0 : ℝ), (1 : ℝ), (0 : ℝ)),
      ((-1 : ℝ), (0 : ℝ), (0 : ℝ)), ((1 : ℝ), (0 : ℝ), (0 : ℝ))], []⟩
    [((1 : ℝ), (0 : ℝ), (0 : ℝ)), ((0 : ℝ), (1 : ℝ), (0 : ℝ)),
      ((-1 : ℝ), (0 : ℝ), (0 : ℝ)), ((1 : ℝ), (0 : ℝ), (0 : ℝ))]
    htriW hgen hgmW
  exact ⟨hgen, hgmW, hmain.1, hmain.2.1, hmain.2.2.1⟩

end GeoTiler
